import Mathlib

/-!
Shallow embedding of the dsbootstrap DS-bootstrapping scanner
(src/dsbootstrap/scanner.py, src/dsbootstrap/stats.py).

External effects (DNS answers, the system resolver, dnspython's crypto
routines, hashlib's sha256) are supplied by a `World` oracle; the scanner's
own control flow, event recording and data manipulation are translated
function by function from the Python source.  Python exceptions are
modelled with `Except PyExc`; the process-wide event queue and the
`global_auths_map` are threaded explicitly as a state record `St`.
-/

deriving instance DecidableEq for Except

namespace DSBootstrap

/-- Python exception kinds that the scanner code can raise or catch.
`dnsErr` stands for any `dns.exception.DNSException`. -/
inductive PyExc where
  | typeError
  | attributeError
  | valueError
  | keyError
  | indexError
  | stopIteration
  | dnsErr
deriving DecidableEq, Repr

/-- The event taxonomy of src/dsbootstrap/stats.py (class Event). -/
inductive Event where
  | CHILD_CDS_INCONSISTENT
  | CHILD_CDNSKEY_INCONSISTENT
  | CHILD_DNSKEY_INCONSISTENT
  | BOOT_CDS_INCONSISTENT
  | BOOT_CDNSKEY_INCONSISTENT
  | BOOT_NOOP
  | DNS_FAILURE
  | DNS_BOGUS
  | DNS_LAME
  | DNS_TIMEOUT
  | HAVE_DS
  | HAVE_CDS
  | NO_CDS
  | NO_CDNSKEY
  | OLD_SIG
  | NOT_SIGNED_BY_KSK
  | CDS_DELETE
  | CONTINUITY_ERR
  | CDS_NOOP
deriving DecidableEq, Repr

/-- A DNS label, as its byte sequence (dnspython labels are bytes). -/
abbrev Label := List Nat

/-- A DNS name: a sequence of labels.  An absolute name ends with the
empty root label, matching dnspython's `dns.name.Name`. -/
abbrev Name := List Label

/-- The record types the scanner queries for. -/
inductive RdType where
  | DS
  | CDS
  | CDNSKEY
  | DNSKEY
  | NS
  | NSEC
  | A
  | AAAA
deriving DecidableEq, Repr

/-- DS rdata fields (RFC 4034 section 5); CDS shares the wire format. -/
structure DSRdata where
  key_tag : Nat
  algorithm : Nat
  digest_type : Nat
  digest : List Nat
deriving DecidableEq, Repr

/-- One resource record's rdata, as the scanner observes it.  `rd.to_text()`
is modelled as the identity (dnspython's to_text/from_text round-trips),
so sets of rdata texts are modelled as finsets of `Rdata`. -/
inductive Rdata where
  | ds (d : DSRdata)
  | key (k : Nat)
  | ns (target : Name)
  | nsec (next : Name)
  | addr (a : Nat)
  | sig (s : Nat)
deriving DecidableEq, Repr

/-- An RRset: owner name, record type and rdata list.  TTL and class are
not observed by the scanner and are omitted. -/
structure RRset where
  name : Name
  rdtype : RdType
  rdatas : List Rdata
deriving DecidableEq, Repr

/-- A dnspython `resolver.Answer`, restricted to the fields the scanner
reads: `answer.rrset` (None when the query had an empty answer),
the answer and authority sections of `answer.response`, and the RRSIG
rrset found by `response.find_rrset` in `get_rrsigset` (`none` means
`find_rrset` raises KeyError). -/
structure Answer where
  rrset : Option RRset := none
  ansSection : List RRset := []
  authSection : List RRset := []
  rrsigset : Option RRset := none
deriving DecidableEq, Repr

/-- Outcome of `resolver.resolve(domain, rdtype, raise_on_no_answer=False)`
inside query_dns: an answer, or one of the exceptions the code catches. -/
inductive ResolveOutcome where
  | ok (a : Answer)
  | noNameservers
  | timeout
  | otherDNS
deriving DecidableEq, Repr

/-- Outcome of the CD-flag retry inside query_dns: success, or any
`dns.exception.DNSException`. -/
inductive CDOutcome where
  | ok (a : Answer)
  | exc
deriving DecidableEq, Repr

/-- The external world: every DNS answer and every cryptographic routine
the scanner consults.  All fields are (deterministic) functions, so a
`World` value fixes one run's worth of external behaviour.

* `resolve q t ns` — the first `resolver.resolve` in query_dns, keyed by
  qname, rdtype and the optional direct-mode nameserver IP set.
* `resolveCD q t ns` — the retry with the CD bit set.
* `sysResolve h t` — `dns.resolver.resolve(auth, rdtype, raise_on_no_answer
  =False)` in update_auths_map: address set on success, or a raised
  DNSException.
* `zoneFor n` — `dns.resolver.zone_for_name` in check_auths.
* `sha256 bs` — hashlib sha256 digest of a byte string.
* `key_id k` — `dns.dnssec.key_id` of a DNSKEY rdata.
* `make_ds n k dt` — `dns.dnssec.make_ds`; `Except.error ()` models a
  raised `dns.dnssec.UnsupportedAlgorithm`.
* `validate rr sigs n anchors` — `dns.dnssec.validate(rrset, rrsigset,
  {name: keyset})`; `false` models a raised `ValidationFailure` (dnspython
  reports unknown/unsupported signature algorithms during validation as
  `ValidationFailure` as well). -/
structure World where
  resolve : Name → RdType → Option (Finset Nat) → ResolveOutcome
  resolveCD : Name → RdType → Option (Finset Nat) → CDOutcome
  sysResolve : Name → RdType → Except PyExc (Finset Nat)
  zoneFor : Name → Except PyExc Name
  sha256 : List Nat → List Nat
  key_id : Rdata → Nat
  make_ds : Name → Rdata → Nat → Except Unit DSRdata
  validate : Option RRset → RRset → Name → Finset Rdata → Bool

/-- Mutable process state: the event queue of stats.py (`record` appends)
and the process-wide `global_auths_map` (hostname → set of IPs). -/
structure St where
  log : List (Name × Event) := []
  amap : List (Name × Finset Nat) := []
deriving DecidableEq

/-- stats.record: append one `(domain, event)` pair to the queue. -/
def record (s : St) (n : Name) (e : Event) : St :=
  { s with log := s.log ++ [(n, e)] }

/-- query_dns (scanner.py lines 217-240).  Returns the answer, or `none`
after classifying the failure:
* NoNameservers → retry with CD set; retry success records DNS_BOGUS,
  retry raising a DNSException records DNS_LAME;
* Timeout → DNS_TIMEOUT;
* any other DNSException → only a debug log, no event.
The function itself never raises. -/
def query_dns (w : World) (domain : Name) (rdtype : RdType)
    (ns : Option (Finset Nat)) (s : St) : Option Answer × St :=
  match w.resolve domain rdtype ns with
  | .ok a => (some a, s)
  | .noNameservers =>
    match w.resolveCD domain rdtype ns with
    | .ok _ => (none, record s domain .DNS_BOGUS)
    | .exc => (none, record s domain .DNS_LAME)
  | .timeout => (none, record s domain .DNS_TIMEOUT)
  | .otherDNS => (none, s)

/-- `domain.to_wire()`: each label as a length byte followed by the label
bytes; the trailing root label contributes the terminating zero byte. -/
def wireOf (n : Name) : List Nat :=
  (n.map (fun l => l.length :: l)).flatten

/-- Byte code of the standard base32 alphabet `A..Z2..7` at index v. -/
def b32StdChar (v : Nat) : Nat :=
  if v < 26 then 65 + v else 50 + (v - 26)

/-- The eight 5-bit values of one 40-bit base32 input group, exactly as
CPython's `_b32encode` slices the big-endian 5-byte integer. -/
def quintetsOf5 (b0 b1 b2 b3 b4 : Nat) : List Nat :=
  let c := (((b0 * 256 + b1) * 256 + b2) * 256 + b3) * 256 + b4
  [c / 2 ^ 35 % 32, c / 2 ^ 30 % 32, c / 2 ^ 25 % 32, c / 2 ^ 20 % 32,
   c / 2 ^ 15 % 32, c / 2 ^ 10 % 32, c / 2 ^ 5 % 32, c % 32]

/-- 5-bit values of a byte string whose length is a multiple of 5. -/
def quintets : List Nat → List Nat
  | b0 :: b1 :: b2 :: b3 :: b4 :: rest =>
      quintetsOf5 b0 b1 b2 b3 b4 ++ quintets rest
  | _ => []

/-- Zero-pad a byte string to a multiple of five bytes, as CPython's
b32encode pads its input before encoding. -/
def padTo5 (s : List Nat) : List Nat :=
  s ++ List.replicate ((5 - s.length % 5) % 5) 0

/-- Number of trailing `=` padding characters b32encode emits for a given
input-length remainder (CPython: 1→6, 2→4, 3→3, 4→1). -/
def b32PadCount (leftover : Nat) : Nat :=
  if leftover = 1 then 6
  else if leftover = 2 then 4
  else if leftover = 3 then 3
  else if leftover = 4 then 1
  else 0

/-- `base64.b32encode`: encode with the standard alphabet, then replace
the trailing characters of the last group with `=` per the leftover. -/
def b32encode (s : List Nat) : List Nat :=
  let enc := (quintets (padTo5 s)).map b32StdChar
  let pads := b32PadCount (s.length % 5)
  enc.take (enc.length - pads) ++ List.replicate pads 61

/-- dnspython's `b32_normal_to_hex` translation table:
`ABCDEFGHIJKLMNOPQRSTUVWXYZ234567` → `0123456789ABCDEFGHIJKLMNOPQRSTUV`;
every other byte (in particular `=` = 61) is unchanged. -/
def b32NormalToHexChar (c : Nat) : Nat :=
  if 65 ≤ c ∧ c ≤ 74 then c - 17
  else if 75 ≤ c ∧ c ≤ 90 then c - 10
  else if 50 ≤ c ∧ c ≤ 55 then c + 31
  else c

/-- `bytes.rstrip(b'=')`: drop trailing `=` (byte 61) characters. -/
def rstripEq (s : List Nat) : List Nat :=
  (s.reverse.dropWhile (fun c => c == 61)).reverse

/-- `bytes.lower()`: map ASCII uppercase letters to lowercase. -/
def lowerChar (c : Nat) : Nat :=
  if 65 ≤ c ∧ c ≤ 90 then c + 32 else c

/-- The byte pipeline of signaling_hash (scanner.py line 32):
`b32encode(digest).translate(b32_normal_to_hex).rstrip(b'=').lower()`. -/
def sigPipeline (digest : List Nat) : List Nat :=
  (rstripEq ((b32encode digest).map b32NormalToHexChar)).map lowerChar

/-- signaling_hash (scanner.py lines 29-33): sha256 the name's wire form,
then run the base32 pipeline. -/
def signaling_hash (w : World) (domain : Name) : List Nat :=
  sigPipeline (w.sha256 (wireOf domain))

/-- Value of a base32 extended-hex character `0..9a..v` (spec-side). -/
def b32hexVal (c : Nat) : Nat :=
  if c ≤ 57 then c - 48 else c - 87

/-- Spec-side base32 extended-hex decoding of a 5-bit value sequence,
per RFC 4648: full groups of eight 5-bit values yield five bytes; a
final group of 7/5/4/2 values yields 4/3/2/1 bytes, discarding the
remaining pad bits. -/
def octetsFromQuintets : List Nat → List Nat
  | v0 :: v1 :: v2 :: v3 :: v4 :: v5 :: v6 :: v7 :: rest =>
      let c := ((((((v0 * 32 + v1) * 32 + v2) * 32 + v3) * 32 + v4) * 32
        + v5) * 32 + v6) * 32 + v7
      [c / 2 ^ 32 % 256, c / 2 ^ 24 % 256, c / 2 ^ 16 % 256,
       c / 2 ^ 8 % 256, c % 256] ++ octetsFromQuintets rest
  | [v0, v1, v2, v3, v4, v5, v6] =>
      let c := (((((v0 * 32 + v1) * 32 + v2) * 32 + v3) * 32 + v4) * 32
        + v5) * 32 + v6
      [c / 2 ^ 27 % 256, c / 2 ^ 19 % 256, c / 2 ^ 11 % 256, c / 2 ^ 3 % 256]
  | [v0, v1, v2, v3, v4] =>
      let c := (((v0 * 32 + v1) * 32 + v2) * 32 + v3) * 32 + v4
      [c / 2 ^ 17 % 256, c / 2 ^ 9 % 256, c / 2 ^ 1 % 256]
  | [v0, v1, v2, v3] =>
      let c := ((v0 * 32 + v1) * 32 + v2) * 32 + v3
      [c / 2 ^ 12 % 256, c / 2 ^ 4 % 256]
  | [v0, v1] =>
      [(v0 * 32 + v1) / 2 ^ 2 % 256]
  | _ => []

/-- Modelled from the spec: decoding from base32 extended-hex, alphabet
`0123456789abcdefghijklmnopqrstuv`, padding already stripped. -/
def b32hexDecode (s : List Nat) : List Nat :=
  octetsFromQuintets (s.map b32hexVal)

/-- The composite character encoding the pipeline applies to each 5-bit
value: standard alphabet, then the hex translation table, then lower. -/
def hexChar (v : Nat) : Nat :=
  lowerChar (b32NormalToHexChar (b32StdChar v))

/-- Iterating a dnspython Answer yields the rdatas of its rrset, or
nothing when the rrset is `None` (`iter(self.rrset and self.rrset or [])`). -/
def rdatasOf (a : Answer) : List Rdata :=
  match a.rrset with
  | none => []
  | some rr => rr.rdatas

/-- `{rd.to_text() for rd in res}`: the set of rdata texts of an answer
(rdata text modelled as the rdata itself; to_text is injective). -/
def rdSet (a : Answer) : Finset Rdata :=
  (rdatasOf a).toFinset

/-- dnspython RRset equality: same owner name, same type, same rdata set
(order- and duplicate-insensitive; TTL ignored). -/
def rrsetEq (a b : RRset) : Bool :=
  a.name == b.name && a.rdtype == b.rdtype && a.rdatas.toFinset == b.rdatas.toFinset

/-- Python `==` on optional RRsets (None == None is True). -/
def optRRsetEq : Option RRset → Option RRset → Bool
  | none, none => true
  | some a, some b => rrsetEq a b
  | _, _ => false

/-- all_equal (scanner.py lines 23-26): `groupby` leaves at most one group
iff every adjacent pair is equal under the given equality. -/
def all_equal (eq : α → α → Bool) : List α → Bool
  | [] => true
  | [_] => true
  | x :: y :: rest => eq x y && all_equal eq (y :: rest)

/-- The result part of query_dns, which does not depend on the incoming
state (query_dns only appends events). -/
def queryOpt (w : World) (d : Name) (t : RdType) (ns : Option (Finset Nat)) :
    Option Answer :=
  (query_dns w d t ns ⟨[], []⟩).1

/-- query_dns_and_extract_rdata (scanner.py lines 284-290).  NOTE the
faithful bug: when query_dns returns None the code records DNS_FAILURE but
does not return, so `{rd.to_text() for rd in res}` iterates over Python
`None` and raises TypeError. -/
def query_dns_and_extract_rdata (w : World) (qname : Name) (rdtype : RdType)
    (s : St) : Except PyExc (Option (Finset Rdata)) × St :=
  match query_dns w qname rdtype none s with
  | (none, s') => (.error .typeError, record s' qname .DNS_FAILURE)
  | (some a, s') =>
    match a.rrset with
    | none => (.ok none, s')
    | some _ => (.ok (some (rdSet a)), s')

/-- The hostname → IP-set cache (`global_auths_map`), as an insertion-
ordered association list. -/
abbrev AMap := List (Name × Finset Nat)

/-- update_auths_map body for a single hostname (scanner.py lines 92-96):
skip if cached, else resolve AAAA then A and union the addresses.  The
third component traces the `dns.resolver.resolve` calls issued.  When the
A query raises, the map already holds the AAAA addresses (the defaultdict
entry was assigned on the first loop iteration). -/
def update_auths_one (w : World) (m : AMap) (auth : Name) :
    Except PyExc Unit × AMap × List (Name × RdType) :=
  if (m.lookup auth).isSome then (.ok (), m, [])
  else
    match w.sysResolve auth .AAAA with
    | .error e => (.error e, m, [(auth, .AAAA)])
    | .ok s1 =>
      match w.sysResolve auth .A with
      | .error e => (.error e, m ++ [(auth, s1)], [(auth, .AAAA), (auth, .A)])
      | .ok s2 => (.ok (), m ++ [(auth, s1 ∪ s2)], [(auth, .AAAA), (auth, .A)])

/-- update_auths_map (scanner.py lines 91-96) over a hostname list. -/
def update_auths_map (w : World) (auths : List Name) (m : AMap) :
    Except PyExc Unit × AMap × List (Name × RdType) :=
  match auths with
  | [] => (.ok (), m, [])
  | a :: rest =>
    match update_auths_one w m a with
    | (.ok _, m', tr) =>
      match update_auths_map w rest m' with
      | (r, m'', tr') => (r, m'', tr ++ tr')
    | (.error e, m', tr) => (.error e, m', tr)

/-- The per-nameserver queries of fetch_rrset_with_consistency
(scanner.py line 278), in auths-map insertion order. -/
def queryEach (w : World) (domain : Name) (rdtype : RdType) :
    List (Finset Nat) → St → List (Option Answer) × St
  | [], s => ([], s)
  | v :: rest, s =>
    match query_dns w domain rdtype (some v) s with
    | (r, s') =>
      match queryEach w domain rdtype rest s' with
      | (rs, s'') => (r :: rs, s'')

/-- `[v.rrset for v in rds]`: projecting `.rrset`; a failed query left
Python `None` in the list, on which attribute access raises. -/
def rrsetsOf : List (Option Answer) → Except PyExc (List (Option RRset))
  | [] => .ok []
  | none :: _ => .error .attributeError
  | some a :: rest =>
    match rrsetsOf rest with
    | .ok l => .ok (a.rrset :: l)
    | .error e => .error e

/-- fetch_rrset_with_consistency (scanner.py lines 277-281): query each
nameserver set, require all answer rrsets equal, and return the first
answer's rdata text set (`rds[0]` raises IndexError on an empty map). -/
def fetch_rrset_with_consistency (w : World) (domain : Name) (rdtype : RdType)
    (amapF : AMap) (s : St) : Except PyExc (Option (Finset Rdata)) × St :=
  match queryEach w domain rdtype (amapF.map (·.2)) s with
  | (rds, s') =>
    match rrsetsOf rds with
    | .error e => (.error e, s')
    | .ok rrsets =>
      if all_equal optRRsetEq rrsets = false then (.ok none, s')
      else
        match rds with
        | [] => (.error .indexError, s')
        | some a :: _ => (.ok (some (rdSet a)), s')
        | none :: _ => (.error .attributeError, s')

/-- `ds == dns.dnssec.make_ds(name, dnskey, ds.digest_type)` guarded by
the key-tag check, with UnsupportedAlgorithm swallowed (lines 262-273). -/
def dnskey_matches (w : World) (name : Name) (dnskey : Rdata) (d : DSRdata) :
    Bool :=
  (d.key_tag == w.key_id dnskey) &&
    (match w.make_ds name dnskey d.digest_type with
     | .ok d' => d' == d
     | .error _ => false)

/-- filter_dnskey_set (scanner.py lines 254-274): the DNSKEYs of the
answer's rrset matched by some DS of the given set.  The owner name is
only read once a DNSKEY is iterated, so a `None` rrset yields ∅. -/
def filter_dnskey_set (w : World) (a : Answer) (dsset : Finset DSRdata) :
    Finset Rdata :=
  match a.rrset with
  | none => ∅
  | some rr =>
    (rr.rdatas.filter
      (fun k => decide (∃ d ∈ dsset, dnskey_matches w rr.name k d = true))).toFinset

/-- `dns.rdata.from_text(IN, DS, rdata)` on a CDS text. -/
def rdataToDS : Rdata → Option DSRdata
  | .ds d => some d
  | _ => none

/-- Step 5 (scanner.py lines 177-179): inject every CDS text as a DS
rdata; a text that does not parse as DS raises dns.exception.SyntaxError. -/
def parse_ds_set (rs : Finset Rdata) : Except PyExc (Finset DSRdata) :=
  if ∀ r ∈ rs, (rdataToDS r).isSome then
    .ok (rs.image (fun r => (rdataToDS r).getD ⟨0, 0, 0, []⟩))
  else .error .dnsErr

/-- The DS RRset do_scan builds and returns: owner name and DS rdata set. -/
structure DSRRset where
  name : Name
  rdatas : Finset DSRdata
deriving DecidableEq

/-- The `for alg, dsset in dssets.items()` loop of check_continuity
(lines 311-321): per algorithm, filter the DNSKEYs and validate; a
ValidationFailure is caught and yields False; get_rrsigset's find_rrset
raises KeyError when the response has no covering RRSIG rrset, and
dns.dnssec.validate of a `None` rrset raises AttributeError. -/
def continuityLoop (w : World) (cds : DSRRset) (a : Answer) :
    List Nat → Except PyExc Bool
  | [] => .ok true
  | alg :: rest =>
    let keyset := filter_dnskey_set w a (cds.rdatas.filter (fun d => d.algorithm = alg))
    match a.rrsigset with
    | none => .error .keyError
    | some sigs =>
      match a.rrset with
      | none => .error .attributeError
      | some rr =>
        if w.validate (some rr) sigs cds.name keyset then
          continuityLoop w cds a rest
        else .ok false

/-- The algorithms present in a DS set, in ascending order (Python dict
iteration order is unspecified; this is an arbitrary determinization). -/
def algList (rs : Finset DSRdata) : List Nat :=
  (List.range (rs.sup DSRdata.algorithm + 1)).filter
    (fun alg => decide (∃ d ∈ rs, d.algorithm = alg))

/-- check_continuity (scanner.py lines 293-324): partition the candidate
DS set by algorithm (re-parsing to_text/from_text is the identity) and
run the validation loop over the partition keys. -/
def check_continuity (w : World) (cds : DSRRset) (a : Answer) :
    Except PyExc Bool :=
  continuityLoop w cds a (algList cds.rdatas)

/-- The label `_boot` (bytes of b"_boot"). -/
def bootLabel : Label := [95, 98, 111, 111, 116]

/-- Step 3's query-and-classify loop (scanner.py lines 147-158) for one
rdtype: absent rdata (no answer rrset) records NO_CDS / NO_CDNSKEY against
the child and omits the FQDN; a present rdata set is appended keyed by the
FQDN; a query-layer failure raises out of the extraction helper. -/
def step3fold (w : World) (child : Name) (rdtype : RdType) (noEv : Event) :
    List Name → List (Option Name × Finset Rdata) → St →
    Except PyExc (List (Option Name × Finset Rdata)) × St
  | [], m, s => (.ok m, s)
  | f :: rest, m, s =>
    match query_dns_and_extract_rdata w f rdtype s with
    | (.error e, s') => (.error e, s')
    | (.ok none, s') => step3fold w child rdtype noEv rest m (record s' child noEv)
    | (.ok (some rs), s') => step3fold w child rdtype noEv rest (m ++ [(some f, rs)]) s'

/-- Step 6's direct DNSKEY queries (lines 184-187), one per auths-map
entry, in map order. -/
def step6queries (w : World) (child : Name) :
    AMap → St → List (Option Answer) × St
  | [], s => ([], s)
  | (_, v) :: rest, s =>
    match query_dns w child .DNSKEY (some v) s with
    | (r, s') =>
      match step6queries w child rest s' with
      | (rs, s'') => (r :: rs, s'')

/-- `[dnskey.rrset for dnskey in dnskeyset.values()]` needs every value to
be a real answer; a failed direct query left None, whose attribute access
raises. -/
def answersOf : List (Option Answer) → Except PyExc (List Answer)
  | [] => .ok []
  | none :: _ => .error .attributeError
  | some a :: rest =>
    match answersOf rest with
    | .ok l => .ok (a :: l)
    | .error e => .error e

/-- The signaling FQDNs of step 3 (scanner.py lines 144-145):
`<firstlabel>.<signaling_hash(parent)>._boot.<auth>` for each auth; the
Python set is iterated as the deduplicated list. -/
def signalingFqdns (w : World) (child : Name) (auths : List Name) :
    List Name :=
  (auths.map (fun auth =>
    [child.headD [], signaling_hash w (child.drop 1)] ++ [bootLabel] ++ auth)).dedup

/-- do_scan (scanner.py lines 99-198), bootstrap branch: the leading-dot
NSEC-walk dispatch and the text-level lowercasing/parsing of the child
name happen before this function, so `child` is the canonical absolute
name and `auths` the nameserver hostnames.  The `elif ds:` truthiness of
an answer is its rdata list being non-empty.  Returns the DS RRset, `none`
after recording a terminal event, or a raised Python exception. -/
def do_scan (w : World) (child : Name) (auths : List Name) (s : St) :
    Except PyExc (Option DSRRset) × St :=
  -- Step 1
  match query_dns w child .DS none s with
  | (none, s1) => (.ok none, record s1 child .DNS_FAILURE)
  | (some dsAns, s1) =>
    if (rdatasOf dsAns).isEmpty = false then (.ok none, record s1 child .HAVE_DS)
    else
      match update_auths_map w auths s1.amap with
      | (.error e, m', _) => (.error e, { s1 with amap := m' })
      | (.ok _, m', _) =>
        let s2 : St := { s1 with amap := m' }
        let amapF := m'.filter (fun kv => auths.contains kv.1)
        -- Step 2
        match fetch_rrset_with_consistency w child .CDS amapF s2 with
        | (.error e, s3) => (.error e, s3)
        | (.ok none, s3) => (.ok none, record s3 child .CHILD_CDS_INCONSISTENT)
        | (.ok (some cdsApex), s3) =>
          match fetch_rrset_with_consistency w child .CDNSKEY amapF s3 with
          | (.error e, s4) => (.error e, s4)
          | (.ok none, s4) => (.ok none, record s4 child .CHILD_CDNSKEY_INCONSISTENT)
          | (.ok (some cdnApex), s4) =>
            -- Step 3
            let fqdns := signalingFqdns w child auths
            match step3fold w child .CDS .NO_CDS fqdns [(none, cdsApex)] s4 with
            | (.error e, s5) => (.error e, s5)
            | (.ok cdsMap, s5) =>
              match step3fold w child .CDNSKEY .NO_CDNSKEY fqdns [(none, cdnApex)] s5 with
              | (.error e, s6) => (.error e, s6)
              | (.ok cdnMap, s6) =>
                -- Step 4
                if all_equal (fun a b => a == b) (cdsMap.map (·.2)) = false then
                  (.ok none, record s6 child .BOOT_CDS_INCONSISTENT)
                else if all_equal (fun a b => a == b) (cdnMap.map (·.2)) = false then
                  (.ok none, record s6 child .BOOT_CDNSKEY_INCONSISTENT)
                else
                  match cdsMap, cdnMap with
                  | [], _ => (.error .stopIteration, s6)
                  | _, [] => (.error .stopIteration, s6)
                  | (_, cds) :: _, (_, cdn) :: _ =>
                    if cds = ∅ ∧ cdn = ∅ then (.ok none, record s6 child .BOOT_NOOP)
                    else
                      -- Step 5
                      match parse_ds_set cds with
                      | .error e => (.error e, s6)
                      | .ok dsSet =>
                        let ds : DSRRset := ⟨child, dsSet⟩
                        -- Step 6
                        match step6queries w child amapF s6 with
                        | (opts, s7) =>
                          match answersOf opts with
                          | .error e => (.error e, s7)
                          | .ok answers =>
                            if all_equal optRRsetEq (answers.map (·.rrset)) = false then
                              (.ok none, record s7 child .CHILD_DNSKEY_INCONSISTENT)
                            else
                              match answers with
                              | [] => (.error .stopIteration, s7)
                              | a0 :: _ =>
                                match check_continuity w ds a0 with
                                | .error e => (.error e, s7)
                                | .ok false => (.ok none, record s7 child .CONTINUITY_ERR)
                                | .ok true => (.ok (some ds), s7)

/-- `next_name.is_subdomain(ancestor)`: ancestor is a label suffix. -/
def isSubdomain (n anc : Name) : Bool :=
  anc.isSuffixOf n

/-- `next_name - ancestor`: the relative part. -/
def relativize (n anc : Name) : Name :=
  n.take (n.length - anc.length)

/-- The pure result of next_nsec_prefix (scanner.py lines 36-46) at one
relative name: the next relative name (`.ok none` when the walk stops
there, which includes a failed query whose AttributeError is caught), or
a raised exception: ValueError when the response does not hold exactly
one NSEC rrset (`rrset, =` unpacking), IndexError on `rrset[0]` of an
empty rrset, AttributeError on an rdata without a `next` field. -/
def nextNsecRes (w : World) (pfx entry : Name) : Except PyExc (Option Name) :=
  match queryOpt w (pfx ++ entry) .NSEC none with
  | none => .ok none
  | some a =>
    match (a.ansSection ++ a.authSection).filter (fun rr => rr.rdtype == .NSEC) with
    | [rr] =>
      match rr.rdatas with
      | [] => .error .indexError
      | rd :: _ =>
        match rd with
        | .nsec nxt => .ok (if isSubdomain nxt entry then some (relativize nxt entry) else none)
        | _ => .error .attributeError
    | _ => .error .valueError

/-- next_nsec_prefix with its effects: the query's classification events,
and DNS_FAILURE on a failed query. -/
def next_nsec_pfx (w : World) (pfx entry : Name) (s : St) :
    Except PyExc (Option Name) × St :=
  match query_dns w (pfx ++ entry) .NSEC none s with
  | (none, s') => (.ok none, record s' (pfx ++ entry) .DNS_FAILURE)
  | (some _, s') => (nextNsecRes w pfx entry, s')

/-- The NSEC chain walk for one nameserver (scanner.py lines 83-86),
with a fuel bound on the number of loop iterations: `.ok none` means the
fuel ran out (the Python loop is still running), `.ok (some acc)` a
terminated walk with its collected relative names. -/
def walkLoop (w : World) (entry : Name) :
    Nat → Name → List Name → St → Except PyExc (Option (List Name)) × St
  | 0, pfx, acc, s =>
    match next_nsec_pfx w pfx entry s with
    | (.error e, s') => (.error e, s')
    | (.ok none, s') => (.ok (some acc), s')
    | (.ok (some q), s') =>
      if q = [] then (.ok (some acc), s') else (.ok none, s')
  | fuel' + 1, pfx, acc, s =>
    match next_nsec_pfx w pfx entry s with
    | (.error e, s') => (.error e, s')
    | (.ok none, s') => (.ok (some acc), s')
    | (.ok (some q), s') =>
      if q = [] then (.ok (some acc), s')
      else walkLoop w entry fuel' q (if q ∈ acc then acc else acc ++ [q]) s'

/-- Termination of the source's unbounded `while next_prefix:` loop from a
given relative name, for a fixed world: the loop terminates iff this
inductive predicate holds (stop on a raised exception, on `None`, or on a
falsy empty relative name; otherwise the loop continues at the next name). -/
inductive WalkTerm (w : World) (entry : Name) : Name → Prop where
  | exc : ∀ {p : Name} {e : PyExc},
      nextNsecRes w p entry = .error e → WalkTerm w entry p
  | stop : ∀ {p : Name},
      nextNsecRes w p entry = .ok none → WalkTerm w entry p
  | stopEmpty : ∀ {p : Name},
      nextNsecRes w p entry = .ok (some []) → WalkTerm w entry p
  | step : ∀ {p q : Name},
      nextNsecRes w p entry = .ok (some q) → q ≠ [] →
      WalkTerm w entry q → WalkTerm w entry p

/-- The per-auth walks of walk_ancestor (lines 80-86): thread the prefix
sets as a function from hostname, accumulating into existing entries. -/
def walkAuthSets (w : World) (anc : Name) (fuel : Nat) :
    List Name → (Name → List Name) → St →
    Except PyExc (Option (Name → List Name)) × St
  | [], pm, s => (.ok (some pm), s)
  | auth :: rest, pm, s =>
    let entry : Name := [signaling_hash w anc, bootLabel] ++ auth
    match walkLoop w entry fuel [] (pm auth) s with
    | (.error e, s') => (.error e, s')
    | (.ok none, s') => (.ok none, s')
    | (.ok (some found), s') =>
      walkAuthSets w anc fuel rest (fun x => if x = auth then found else pm x) s'

/-- `[rr.target.to_text() for rr in rrset]`; a non-NS rdata has no
`target` attribute. -/
def targetsOf : List Rdata → Except PyExc (List Name)
  | [] => .ok []
  | .ns t :: rest =>
    match targetsOf rest with
    | .ok l => .ok (t :: l)
    | .error e => .error e
  | _ :: _ => .error .attributeError

/-- check_auths (scanner.py lines 49-76): find the real parent zone, get
its NS rrset via the recursive resolver, resolve those nameservers, query
the candidate's NS rrset directly, and compare the delegation (sorted
hostname lists, i.e. multiset equality).  DNS failures record DNS_FAILURE
against the parent and yield False. -/
def check_auths (w : World) (domain : Name) (auths : List Name) (s : St) :
    Except PyExc Bool × St :=
  match w.zoneFor (domain.drop 1) with
  | .error e => (.error e, s)
  | .ok parent =>
    match query_dns w parent .NS none s with
    | (none, s1) => (.ok false, record s1 parent .DNS_FAILURE)
    | (some res, s1) =>
      match res.rrset with
      | none => (.error .typeError, s1)
      | some rr =>
        match targetsOf rr.rdatas with
        | .error e => (.error e, s1)
        | .ok nsHosts =>
          match update_auths_map w nsHosts s1.amap with
          | (.error e, m', _) => (.error e, { s1 with amap := m' })
          | (.ok _, m', _) =>
            let s2 : St := { s1 with amap := m' }
            let ips : Finset Nat :=
              nsHosts.foldl (fun acc h2 => acc ∪ ((m'.lookup h2).getD ∅)) ∅
            match query_dns w domain .NS (some ips) s2 with
            | (none, s3) => (.ok false, record s3 parent .DNS_FAILURE)
            | (some res2, s3) =>
              match res2.authSection.filter (fun r => r.rdtype == .NS) with
              | [rrA] =>
                match targetsOf rrA.rdatas with
                | .error e => (.error e, s3)
                | .ok targets =>
                  ((.ok (decide ((auths : Multiset Name) = (targets : Multiset Name)))), s3)
              | _ => (.error .valueError, s3)

/-- The candidate filter of walk_ancestor's final list comprehension
(line 88): keep the candidates whose check_auths call returns True,
threading the cache and event state left to right. -/
def candFilter (w : World) (auths : List Name) :
    List Name → St → Except PyExc (List Name) × St
  | [], s => (.ok [], s)
  | c :: rest, s =>
    match check_auths w c auths s with
    | (.error e, s') => (.error e, s')
    | (.ok true, s') =>
      match candFilter w auths rest s' with
      | (.error e, s'') => (.error e, s'')
      | (.ok out, s'') => (.ok (c :: out), s'')
    | (.ok false, s') => candFilter w auths rest s'

/-- walk_ancestor (scanner.py lines 79-88).  The returned candidates are
the child names (the `' '.join` output formatting with the auths appended
is external text formatting).  `set.intersection(*prefix_map.values())`
on an empty auths list raises TypeError.  `.ok none` propagates a walk
loop that ran out of fuel. -/
def walk_ancestor (w : World) (fuel : Nat) (anc : Name) (auths : List Name)
    (s : St) : Except PyExc (Option (List Name)) × St :=
  match walkAuthSets w anc fuel auths (fun _ => ∅) s with
  | (.error e, s') => (.error e, s')
  | (.ok none, s') => (.ok none, s')
  | (.ok (some pm), s') =>
    match auths.dedup with
    | [] => (.error .typeError, s')
    | a0 :: rest =>
      let inter := rest.foldl (fun acc a => acc.filter (· ∈ pm a)) (pm a0)
      let cands := inter.map (fun p => p ++ anc)
      match candFilter w auths cands s' with
      | (.error e, s'') => (.error e, s'')
      | (.ok out, s'') => (.ok (some out), s'')

/-- The addresses a hostname resolves to in a world (AAAA ∪ A; a raised
resolution contributes nothing). -/
def wAddrs (w : World) (h : Name) : Finset Nat :=
  (match w.sysResolve h .AAAA with | .ok s => s | .error _ => ∅) ∪
  (match w.sysResolve h .A with | .ok s => s | .error _ => ∅)

/-- The cache entries are exactly the world's resolutions, and every
cached hostname is resolvable (which any entry inserted by a completed
update_auths_map run is). -/
def authsOk (w : World) (m : AMap) : Prop :=
  ∀ p ∈ m, (∃ s1, w.sysResolve p.1 .AAAA = .ok s1) ∧
    (∃ s2, w.sysResolve p.1 .A = .ok s2) ∧ p.2 = wAddrs w p.1

/-- The resolution part of update_auths_map without the cache: resolve
AAAA then A for each hostname, propagating the first raised exception. -/
def sysResolveAll (w : World) : List Name → Except PyExc Unit
  | [] => .ok ()
  | h :: rest =>
    match w.sysResolve h .AAAA with
    | .error e => .error e
    | .ok _ =>
      match w.sysResolve h .A with
      | .error e => .error e
      | .ok _ => sysResolveAll w rest

/-- The cache-independent result of check_auths: in a state whose cache
agrees with the world (`authsOk`), check_auths computes this value. -/
def checkAuthsRes (w : World) (domain : Name) (auths : List Name) :
    Except PyExc Bool :=
  match w.zoneFor (domain.drop 1) with
  | .error e => .error e
  | .ok parent =>
    match queryOpt w parent .NS none with
    | none => .ok false
    | some res =>
      match res.rrset with
      | none => .error .typeError
      | some rr =>
        match targetsOf rr.rdatas with
        | .error e => .error e
        | .ok nsHosts =>
          match sysResolveAll w nsHosts with
          | .error e => .error e
          | .ok _ =>
            let ips : Finset Nat :=
              nsHosts.foldl (fun acc h2 => acc ∪ wAddrs w h2) ∅
            match queryOpt w domain .NS (some ips) with
            | none => .ok false
            | some res2 =>
              match res2.authSection.filter (fun r => r.rdtype == .NS) with
              | [rrA] =>
                match targetsOf rrA.rdatas with
                | .error e => .error e
                | .ok targets =>
                  .ok (decide ((auths : Multiset Name) = (targets : Multiset Name)))
              | _ => .error .valueError

/-! ### Concrete worlds used by witnesses and counterexamples -/

/-- A world in which every query fails and every crypto call degenerates;
specific worlds override individual fields. -/
def defaultWorld : World where
  resolve := fun _ _ _ => .otherDNS
  resolveCD := fun _ _ _ => .exc
  sysResolve := fun _ _ => .error .dnsErr
  zoneFor := fun _ => .error .dnsErr
  sha256 := fun _ => []
  key_id := fun _ => 0
  make_ds := fun _ _ _ => .error ()
  validate := fun _ _ _ _ => false

/-- A world whose primary resolution always times out. -/
def wTimeout : World :=
  { defaultWorld with resolve := fun _ _ _ => .timeout }

/-- A world whose hash oracle returns the 32 bytes 0..31. -/
def wSha : World :=
  { defaultWorld with sha256 := fun _ => List.range 32 }

/-- A world for the step-3 witness: the signaling name [[1]] answers CDS
with no rrset (NODATA), the signaling name [[2]] with a present but empty
rrset. -/
def wStep3 : World :=
  { defaultWorld with
    resolve := fun n _ _ =>
      if n = [[1]] then .ok { rrset := none }
      else if n = [[2]] then .ok { rrset := some ⟨[[2]], .CDS, []⟩ }
      else .otherDNS }

/-- The events one signaling-name query contributes in step 3 (used to
state the step-3 classification). -/
def step3Events (w : World) (child : Name) (rdtype : RdType) (noEv : Event)
    (f : Name) : List (Name × Event) :=
  match queryOpt w f rdtype none with
  | some a => if a.rrset.isNone then [(child, noEv)] else []
  | none => []

/-- The comparison-map entry one signaling-name query contributes. -/
def step3Entry (w : World) (rdtype : RdType) (f : Name) :
    Option (Option Name × Finset Rdata) :=
  (queryOpt w f rdtype none).bind
    (fun a => a.rrset.map (fun rr => (some f, rr.rdatas.toFinset)))

/-- A world for the C3 witness: every DNSKEY has key tag 3, fingerprints
to the DS (3, 8, 2, [1]), and validation succeeds iff the trust-anchor
set is non-empty. -/
def wC3 : World :=
  { defaultWorld with
    key_id := fun _ => 3
    make_ds := fun _ _ _ => .ok ⟨3, 8, 2, [1]⟩
    validate := fun _ _ _ ks => decide (ks ≠ ∅) }

/-- The DS rdata used by the C3 witness. -/
def dsC3 : DSRdata := ⟨3, 8, 2, [1]⟩

/-- The DNSKEY rrset of the C3 witness answer. -/
def rrC3 : RRset := ⟨[[99]], .DNSKEY, [.key 1]⟩

/-- The RRSIG rrset of the C3 witness answer. -/
def sigsC3 : RRset := ⟨[[99]], .DNSKEY, [.sig 0]⟩

/-- The DNSKEY answer used by the C3 witness. -/
def ansC3 : Answer :=
  { rrset := some rrC3
    rrsigset := some sigsC3 }

/-- A world for the C9 witness: hostname [[5]] has AAAA {7} and A {8},
hostname [[6]] resolves but has no addresses, everything else raises. -/
def wC9 : World :=
  { defaultWorld with
    sysResolve := fun h t =>
      if h = [[5]] then (if t = .AAAA then .ok {7} else .ok {8})
      else if h = [[6]] then .ok ∅
      else .error .dnsErr }

/-- The informational / query-layer event kinds that the successful-path
steps of a scan may append (never BOOT_NOOP or another terminal event). -/
def benignEvents : List Event :=
  [.DNS_BOGUS, .DNS_LAME, .DNS_TIMEOUT, .DNS_FAILURE, .NO_CDS, .NO_CDNSKEY]

/-- State evolution that only appends benign events to the log. -/
def StDelta (s s' : St) : Prop :=
  ∃ Δ, s'.log = s.log ++ Δ ∧ ∀ p ∈ Δ, p.2 ∈ benignEvents

/-- Child name `a.` for the concrete scan runs. -/
def childBug : Name := [[97], []]

/-- Authoritative hostname `n.` for the concrete scan runs. -/
def authBug : Name := [[110], []]

/-- The signaling FQDN of childBug under authBug in a world whose sha
oracle returns [] (so the hash label is empty). -/
def fqdnBug : Name := [[97], [], bootLabel, [110], []]

/-- A world exhibiting C1's crash: the child has no DS, the auth
resolves, both apex fetches agree on empty answers, and the signaling
CDS query times out — so query_dns returns None and the extraction
helper records DNS_FAILURE and then iterates over Python None. -/
def wBug : World :=
  { defaultWorld with
    resolve := fun n t _ =>
      if n = childBug ∧ t = .DS then .ok { rrset := none }
      else if n = childBug ∧ t = .CDS then .ok { rrset := none }
      else if n = childBug ∧ t = .CDNSKEY then .ok { rrset := none }
      else if n = fqdnBug ∧ t = .CDS then .timeout
      else .otherDNS
    sysResolve := fun h t =>
      if h = authBug then (if t = .AAAA then .ok ∅ else .ok {1})
      else .error .dnsErr }

/-- Second authoritative hostname `m.` for the C10 counterexample. -/
def authC10 : Name := [[109], []]

/-- The signaling FQDN of childBug under authC10 (empty hash label). -/
def fqdnC10 : Name := [[97], [], bootLabel, [109], []]

/-- A world realizing C10's premise — the agreed CDS set is empty (no
apex or signaling CDS anywhere) while the agreed CDNSKEY set is
non-empty — but whose two nameservers serve different DNSKEY RRsets, so
step 6 records CHILD_DNSKEY_INCONSISTENT and the scan returns none. -/
def wC10 : World :=
  { defaultWorld with
    resolve := fun n t ns =>
      if n = childBug ∧ t = .DS then .ok { rrset := none }
      else if n = childBug ∧ t = .CDS then .ok { rrset := none }
      else if n = childBug ∧ t = .CDNSKEY then
        .ok { rrset := some ⟨childBug, .CDNSKEY, [.key 7]⟩ }
      else if n = childBug ∧ t = .DNSKEY ∧ ns = some {1} then
        .ok { rrset := some ⟨childBug, .DNSKEY, [.key 1]⟩ }
      else if n = childBug ∧ t = .DNSKEY ∧ ns = some {2} then
        .ok { rrset := some ⟨childBug, .DNSKEY, [.key 2]⟩ }
      else if (n = fqdnBug ∨ n = fqdnC10) ∧ (t = .CDS ∨ t = .CDNSKEY) then
        .ok { rrset := none }
      else .otherDNS
    sysResolve := fun h t =>
      if h = authBug then (if t = .AAAA then .ok ∅ else .ok {1})
      else if h = authC10 then (if t = .AAAA then .ok ∅ else .ok {2})
      else .error .dnsErr }

/-- Like wC10 but with both nameservers serving the same DNSKEY RRset:
the scan reaches the end and returns the empty DS RRset. -/
def wC10ok : World :=
  { wC10 with
    resolve := fun n t ns =>
      if n = childBug ∧ t = .DNSKEY ∧ ns = some {2} then
        .ok { rrset := some ⟨childBug, .DNSKEY, [.key 1]⟩ }
      else wC10.resolve n t ns }

/-- First DS rdata of the C5 counterexample (matched by DNSKEY .key 1). -/
def dsC5a : DSRdata := ⟨3, 8, 2, [1]⟩

/-- Second DS rdata of the C5 counterexample: same algorithm, key tag 4,
matched by no DNSKEY in the child's DNSKEY RRset. -/
def dsC5b : DSRdata := ⟨4, 8, 2, [2]⟩

/-- The child's DNSKEY answer in the C5 worlds (one key, with RRSIGs). -/
def ansC5 : Answer :=
  { rrset := some ⟨childBug, .DNSKEY, [.key 1]⟩
    rrsigset := some ⟨childBug, .DNSKEY, [.sig 0]⟩ }

/-- A world in which a full scan succeeds and returns the DS set
{dsC5a, dsC5b}, although dsC5b is realized by no DNSKEY: continuity only
needs one matching, signing key per algorithm. -/
def wC5 : World :=
  { defaultWorld with
    resolve := fun n t ns =>
      if n = childBug ∧ t = .DS then .ok { rrset := none }
      else if n = childBug ∧ t = .CDS then
        .ok { rrset := some ⟨childBug, .CDS, [.ds dsC5a, .ds dsC5b]⟩ }
      else if n = childBug ∧ t = .CDNSKEY then .ok { rrset := none }
      else if n = childBug ∧ t = .DNSKEY ∧ ns = some {1} then .ok ansC5
      else if n = fqdnBug ∧ (t = .CDS ∨ t = .CDNSKEY) then
        .ok { rrset := none }
      else .otherDNS
    sysResolve := fun h t =>
      if h = authBug then (if t = .AAAA then .ok ∅ else .ok {1})
      else .error .dnsErr
    key_id := fun _ => 3
    make_ds := fun _ _ _ => .ok dsC5a
    validate := fun _ _ _ ks => decide (ks ≠ ∅) }

/-- The walk entrypoint used by the C8 counterexample. -/
def entryCyc : Name := [[101]]

/-- The relative prefix the cyclic nameserver always points at. -/
def pACyc : Name := [[50]]

/-- An adversarial nameserver for the NSEC walk: every NSEC query is
answered with a single NSEC record whose next name is `pACyc ++ entryCyc`,
so next_nsec_prefix returns the non-empty relative name pACyc from every
starting prefix and the `while next_prefix:` loop cycles forever. -/
def wCyc : World :=
  { defaultWorld with
    resolve := fun _ t _ =>
      if t = .NSEC then
        .ok { ansSection := [⟨pACyc ++ entryCyc, .NSEC, [.nsec (pACyc ++ entryCyc)]⟩] }
      else .otherDNS }

/-- Ancestor name `a.` for the C7 walk. -/
def ancC7 : Name := [[97], []]

/-- The single authoritative hostname `n.` of the C7 walk. -/
def aC7 : Name := [[110], []]

/-- The one signaled relative prefix the C7 walk collects. -/
def pC7 : Name := [[112]]

/-- The signaling entrypoint `<hash>._boot.n.` of the C7 walk (the sha
oracle of wC7 returns [], so the hash label is empty). -/
def entryC7 : Name := [[], bootLabel, [110], []]

/-- The parent zone wC7's zone-cut oracle reports for every name. -/
def parentC7 : Name := [[]]

/-- A world for the C7 counterexample: the NSEC walk finds exactly the
prefix pC7 (the second NSEC answer points out of the entry zone), but
check_auths for the resulting candidate fails its parent NS query
(query_dns returns absent), which records DNS_FAILURE against the parent
before the candidate is dropped. -/
def wC7 : World :=
  { defaultWorld with
    resolve := fun n t _ =>
      if t = .NSEC ∧ n = entryC7 then
        .ok { ansSection := [⟨pC7 ++ entryC7, .NSEC, [.nsec (pC7 ++ entryC7)]⟩] }
      else if t = .NSEC ∧ n = pC7 ++ entryC7 then
        .ok { ansSection := [⟨pC7 ++ entryC7, .NSEC, [.nsec [[122]]]⟩] }
      else .otherDNS
    zoneFor := fun _ => .ok parentC7 }

/-- The single DNSKEY answer served by both nameservers in wC10ok. -/
def ansDNSKEY1 : Answer := { rrset := some ⟨childBug, .DNSKEY, [.key 1]⟩ }

/-- The auths map after resolving childBug's two nameservers. -/
def amapC10 : AMap := [(authBug, {1}), (authC10, {2})]

/-- The event log of the successful empty-CDS scan in wC10ok. -/
def logC10 : List (Name × Event) :=
  [(childBug, .NO_CDS), (childBug, .NO_CDS),
   (childBug, .NO_CDNSKEY), (childBug, .NO_CDNSKEY)]

/-! ### Theorems -/

/-- C4: for every query issued through query_dns: when the resolver
reports no usable nameservers the same query (same qname, rdtype and
nameserver set) is retried with the CD bit set, and classified DNS_BOGUS
if the retry succeeds, DNS_LAME otherwise; a timeout is classified
DNS_TIMEOUT; any other DNS exception records no event (debug log only);
and in every failure case the call returns absent (`none`). -/
theorem query_dns_classification (w : World) (d : Name) (t : RdType)
    (ns : Option (Finset Nat)) (s : St) :
    (∀ a, w.resolve d t ns = .noNameservers → w.resolveCD d t ns = .ok a →
      query_dns w d t ns s = (none, record s d .DNS_BOGUS)) ∧
    (w.resolve d t ns = .noNameservers → w.resolveCD d t ns = .exc →
      query_dns w d t ns s = (none, record s d .DNS_LAME)) ∧
    (w.resolve d t ns = .timeout →
      query_dns w d t ns s = (none, record s d .DNS_TIMEOUT)) ∧
    (w.resolve d t ns = .otherDNS →
      query_dns w d t ns s = (none, s)) := by
  refine ⟨fun a h1 h2 => ?_, fun h1 h2 => ?_, fun h1 => ?_, fun h1 => ?_⟩ <;>
    simp [query_dns, h1] <;> simp [h2]

/-- Witness for C4 at a concrete world: a timed-out query returns absent
and records DNS_TIMEOUT. -/
theorem query_dns_classification_witness :
    query_dns wTimeout [] .DS none ⟨[], []⟩ =
      (none, record ⟨[], []⟩ [] .DNS_TIMEOUT) :=
  (query_dns_classification wTimeout [] .DS none ⟨[], []⟩).2.2.1 rfl

theorem hexChar_val : ∀ v < 32, b32hexVal (hexChar v) = v := by decide

theorem trans_std_ne61 : ∀ v < 32, b32NormalToHexChar (b32StdChar v) ≠ 61 := by
  decide

theorem quintets_lt : ∀ (s : List Nat), ∀ v ∈ quintets s, v < 32
  | [] => by simp [quintets]
  | [b0] => by simp [quintets]
  | [b0, b1] => by simp [quintets]
  | [b0, b1, b2] => by simp [quintets]
  | [b0, b1, b2, b3] => by simp [quintets]
  | b0 :: b1 :: b2 :: b3 :: b4 :: rest => by
    intro v hv
    simp only [quintets, List.mem_append] at hv
    rcases hv with h | h
    · simp only [quintetsOf5, List.mem_cons, List.not_mem_nil, or_false] at h
      rcases h with h | h | h | h | h | h | h | h <;> subst h <;>
        exact Nat.mod_lt _ (by norm_num)
    · exact quintets_lt rest v h

theorem quintets_length : ∀ (s : List Nat),
    (quintets s).length = 8 * (s.length / 5)
  | [] => by simp [quintets]
  | [b0] => by simp [quintets]
  | [b0, b1] => by simp [quintets]
  | [b0, b1, b2] => by simp [quintets]
  | [b0, b1, b2, b3] => by simp [quintets]
  | b0 :: b1 :: b2 :: b3 :: b4 :: rest => by
    have ih := quintets_length rest
    simp only [quintets, quintetsOf5, List.length_append, List.length_cons]
    simp only [List.length_cons, List.length_nil] at ih ⊢
    omega

theorem rstrip_append_replicate (A : List Nat) (m : Nat)
    (hA : ∀ a ∈ A, a ≠ 61) : rstripEq (A ++ List.replicate m 61) = A := by
  unfold rstripEq
  rw [List.reverse_append, List.reverse_replicate]
  have hrep : ∀ (k : Nat) (B : List Nat),
      (List.replicate k 61 ++ B).dropWhile (fun c => c == 61) =
        B.dropWhile (fun c => c == 61) := by
    intro k
    induction k with
    | zero => intro B; simp
    | succ n ih =>
      intro B
      rw [List.replicate_succ, List.cons_append, List.dropWhile_cons]
      simp only [beq_self_eq_true, if_true]
      exact ih B
  rw [hrep]
  cases hrev : A.reverse with
  | nil => simpa using congrArg List.reverse hrev.symm
  | cons h t =>
    have hh : h ∈ A := by
      have hmem : h ∈ A.reverse := by rw [hrev]; exact List.mem_cons_self _ _
      exact List.mem_reverse.mp hmem
    have : (h == 61) = false := by simpa using hA h hh
    rw [List.dropWhile_cons, this]
    simp only [Bool.false_eq_true, if_false]
    rw [← hrev, List.reverse_reverse]

set_option maxHeartbeats 3200000 in
theorem octets5 (b0 b1 b2 b3 b4 : Nat) (t : List Nat)
    (h0 : b0 < 256) (h1 : b1 < 256) (h2 : b2 < 256) (h3 : b3 < 256)
    (h4 : b4 < 256) :
    octetsFromQuintets (quintetsOf5 b0 b1 b2 b3 b4 ++ t) =
      b0 :: b1 :: b2 :: b3 :: b4 :: octetsFromQuintets t := by
  have p5 : (2 : Nat) ^ 5 = 32 := by norm_num
  have p10 : (2 : Nat) ^ 10 = 1024 := by norm_num
  have p15 : (2 : Nat) ^ 15 = 32768 := by norm_num
  have p20 : (2 : Nat) ^ 20 = 1048576 := by norm_num
  have p25 : (2 : Nat) ^ 25 = 33554432 := by norm_num
  have p30 : (2 : Nat) ^ 30 = 1073741824 := by norm_num
  have p35 : (2 : Nat) ^ 35 = 34359738368 := by norm_num
  have p8 : (2 : Nat) ^ 8 = 256 := by norm_num
  have p16 : (2 : Nat) ^ 16 = 65536 := by norm_num
  have p24 : (2 : Nat) ^ 24 = 16777216 := by norm_num
  have p32 : (2 : Nat) ^ 32 = 4294967296 := by norm_num
  simp only [quintetsOf5, List.cons_append, List.append_eq, List.nil_append,
    octetsFromQuintets, List.cons.injEq, and_true,
    p5, p10, p15, p20, p25, p30, p35, p8, p16, p24, p32]
  refine ⟨?_, ?_, ?_, ?_, ?_⟩ <;> omega

set_option maxHeartbeats 1600000 in
theorem octets_last (b0 b1 : Nat) (h0 : b0 < 256) (h1 : b1 < 256) :
    octetsFromQuintets ((quintetsOf5 b0 b1 0 0 0).take 4) = [b0, b1] := by
  have p12 : (2 : Nat) ^ 12 = 4096 := by norm_num
  have p4 : (2 : Nat) ^ 4 = 16 := by norm_num
  have p20 : (2 : Nat) ^ 20 = 1048576 := by norm_num
  have p25 : (2 : Nat) ^ 25 = 33554432 := by norm_num
  have p30 : (2 : Nat) ^ 30 = 1073741824 := by norm_num
  have p35 : (2 : Nat) ^ 35 = 34359738368 := by norm_num
  simp only [quintetsOf5, List.take, octetsFromQuintets, List.cons.injEq, and_true,
    p12, p4, p20, p25, p30, p35]
  refine ⟨?_, ?_⟩ <;> omega

theorem quintets_take_decode : ∀ (s : List Nat), s.length % 5 = 2 →
    (∀ b ∈ s, b < 256) →
    octetsFromQuintets ((quintets (s ++ [0, 0, 0])).take (8 * (s.length / 5) + 4)) = s
  | [] => by intro h; simp at h
  | [b0] => by intro h; simp at h
  | [b0, b1] => by
    intro _ hb
    have h0 := hb b0 (by simp)
    have h1 := hb b1 (by simp)
    have hq : quintets ([b0, b1] ++ [0, 0, 0]) = quintetsOf5 b0 b1 0 0 0 := by
      simp [quintets]
    rw [hq]
    simpa using octets_last b0 b1 h0 h1
  | [b0, b1, b2] => by intro h; simp at h
  | [b0, b1, b2, b3] => by intro h; simp at h
  | b0 :: b1 :: b2 :: b3 :: b4 :: rest => by
    intro hlen hb
    have hr : rest.length % 5 = 2 := by
      simp only [List.length_cons] at hlen; omega
    have hbr : ∀ b ∈ rest, b < 256 := fun b h => hb b (by simp [h])
    have ih := quintets_take_decode rest hr hbr
    have hsplit : (b0 :: b1 :: b2 :: b3 :: b4 :: rest) ++ [0, 0, 0] =
        b0 :: b1 :: b2 :: b3 :: b4 :: (rest ++ [0, 0, 0]) := by simp
    rw [hsplit]
    have hq : quintets (b0 :: b1 :: b2 :: b3 :: b4 :: (rest ++ [0, 0, 0])) =
        quintetsOf5 b0 b1 b2 b3 b4 ++ quintets (rest ++ [0, 0, 0]) := rfl
    rw [hq]
    have hq5len : (quintetsOf5 b0 b1 b2 b3 b4).length = 8 := by
      simp [quintetsOf5]
    have harith : 8 * ((b0 :: b1 :: b2 :: b3 :: b4 :: rest).length / 5) + 4 =
        (quintetsOf5 b0 b1 b2 b3 b4).length + (8 * (rest.length / 5) + 4) := by
      simp only [List.length_cons, hq5len]; omega
    rw [harith, List.take_append]
    rw [octets5 b0 b1 b2 b3 b4 _ (hb b0 (by simp)) (hb b1 (by simp))
      (hb b2 (by simp)) (hb b3 (by simp)) (hb b4 (by simp))]
    rw [ih]

theorem pipeline_shape (s : List Nat) (h2 : s.length % 5 = 2) :
    sigPipeline s =
      ((quintets (padTo5 s)).take ((quintets (padTo5 s)).length - 4)).map hexChar := by
  have hpad : b32PadCount (s.length % 5) = 4 := by rw [h2]; rfl
  have henc : b32encode s =
      ((quintets (padTo5 s)).map b32StdChar).take
        (((quintets (padTo5 s)).map b32StdChar).length - 4) ++
        List.replicate 4 61 := by
    rw [b32encode, hpad]
  unfold sigPipeline
  rw [henc, List.map_append, List.map_replicate]
  have h61 : b32NormalToHexChar 61 = 61 := by norm_num [b32NormalToHexChar]
  rw [h61, ← List.map_take, List.map_map]
  rw [rstrip_append_replicate]
  · rw [List.map_map, List.length_map]
    exact List.map_congr_left fun a _ => rfl
  · intro a ha
    simp only [List.mem_map, Function.comp] at ha
    obtain ⟨v, hv, rfl⟩ := ha
    exact trans_std_ne61 v (quintets_lt _ v (List.mem_of_mem_take hv))

theorem b32_pipeline_decode (s : List Nat) (h2 : s.length % 5 = 2)
    (hb : ∀ b ∈ s, b < 256) : b32hexDecode (sigPipeline s) = s := by
  rw [pipeline_shape s h2]
  unfold b32hexDecode
  rw [List.map_map]
  have hmap : ((quintets (padTo5 s)).take ((quintets (padTo5 s)).length - 4)).map
      (b32hexVal ∘ hexChar) =
      (quintets (padTo5 s)).take ((quintets (padTo5 s)).length - 4) := by
    have := List.map_congr_left (l := (quintets (padTo5 s)).take
      ((quintets (padTo5 s)).length - 4)) (f := b32hexVal ∘ hexChar) (g := id)
      (fun a ha => hexChar_val a (quintets_lt _ a (List.mem_of_mem_take ha)))
    rw [this, List.map_id]
  rw [hmap]
  have hlen : (quintets (padTo5 s)).length - 4 = 8 * (s.length / 5) + 4 := by
    rw [quintets_length]
    unfold padTo5
    simp only [List.length_append, List.length_replicate]
    omega
  have hpadeq : padTo5 s = s ++ [0, 0, 0] := by
    unfold padTo5
    rw [h2]
    norm_num [List.replicate]
  rw [hlen, hpadeq]
  exact quintets_take_decode s h2 hb

/-- C6: signaling_hash is pure (its output depends only on the hash of the
name's wire format, so repeated calls yield byte-identical output), and
decoding its output from base32 extended-hex (alphabet
0123456789abcdefghijklmnopqrstuv, padding stripped, lowercase) yields
exactly the sha256 digest of the name's uncompressed DNS wire format. -/
theorem signaling_hash_decode (w : World) (n : Name)
    (hlen : (w.sha256 (wireOf n)).length = 32)
    (hbytes : ∀ b ∈ w.sha256 (wireOf n), b < 256) :
    b32hexDecode (signaling_hash w n) = w.sha256 (wireOf n) ∧
      (∀ w' : World, w'.sha256 = w.sha256 →
        signaling_hash w' n = signaling_hash w n) := by
  constructor
  · unfold signaling_hash
    exact b32_pipeline_decode _ (by rw [hlen]) hbytes
  · intro w' hsha
    unfold signaling_hash
    rw [hsha]

/-- Witness for C6 at a concrete hash oracle and name. -/
theorem signaling_hash_decode_witness :
    b32hexDecode (signaling_hash wSha [[97]]) = wSha.sha256 (wireOf [[97]]) ∧
      (∀ w' : World, w'.sha256 = wSha.sha256 →
        signaling_hash w' [[97]] = signaling_hash wSha [[97]]) :=
  signaling_hash_decode wSha [[97]] (by decide) (by decide)

theorem query_dns_of_isSome (w : World) (d : Name) (t : RdType)
    (ns : Option (Finset Nat)) (s : St) (h : (queryOpt w d t ns).isSome) :
    query_dns w d t ns s = (queryOpt w d t ns, s) := by
  unfold queryOpt query_dns at h ⊢
  cases hr : w.resolve d t ns with
  | ok a => simp
  | noNameservers =>
    simp only [hr] at h
    cases hc : w.resolveCD d t ns <;> simp [hc] at h
  | timeout => simp [hr] at h
  | otherDNS => simp [hr] at h

theorem extract_of_some (w : World) (qname : Name) (rdtype : RdType) (s : St)
    (a : Answer) (h : queryOpt w qname rdtype none = some a) :
    query_dns_and_extract_rdata w qname rdtype s =
      (match a.rrset with
       | none => (.ok none, s)
       | some _ => (.ok (some (rdSet a)), s)) := by
  unfold query_dns_and_extract_rdata
  rw [query_dns_of_isSome w qname rdtype none s (by simp [h]), h]

theorem step3fold_spec (w : World) (child : Name) (rdtype : RdType)
    (noEv : Event) : ∀ (fqdns : List Name)
    (m : List (Option Name × Finset Rdata)) (s : St),
    (∀ f ∈ fqdns, (queryOpt w f rdtype none).isSome) →
    step3fold w child rdtype noEv fqdns m s =
      (.ok (m ++ fqdns.filterMap (step3Entry w rdtype)),
       { s with log := s.log ++ fqdns.flatMap (step3Events w child rdtype noEv) })
  | [], m, s, _ => by simp [step3fold]
  | f :: rest, m, s, hok => by
    have hf : (queryOpt w f rdtype none).isSome := hok f (List.mem_cons_self _ _)
    obtain ⟨a, ha⟩ := Option.isSome_iff_exists.mp hf
    have hrest : ∀ g ∈ rest, (queryOpt w g rdtype none).isSome :=
      fun g hg => hok g (List.mem_cons_of_mem _ hg)
    unfold step3fold
    rw [extract_of_some w f rdtype s a ha]
    cases hrr : a.rrset with
    | none =>
      dsimp only
      rw [step3fold_spec w child rdtype noEv rest m (record s child noEv) hrest]
      simp only [step3Entry, step3Events, List.filterMap_cons, List.flatMap_cons,
        ha, hrr, Option.bind_some, Option.map_none, record]
      simp [hrr]
    | some rr =>
      dsimp only
      rw [step3fold_spec w child rdtype noEv rest (m ++ [(some f, rdSet a)]) s hrest]
      simp only [step3Entry, step3Events, List.filterMap_cons, List.flatMap_cons,
        ha, hrr, Option.bind_some, Option.map_some, Option.isNone_some, rdSet,
        rdatasOf]
      simp [hrr]

/-- C2: in step 3, for every signaling FQDN whose CDS (resp. CDNSKEY)
query returns an answer: if the answer's RRset is absent, the event
NO_CDS (resp. NO_CDNSKEY) is recorded against the child, the fold
completes without raising (not fatal), and the FQDN is omitted from the
comparison map; if an RRset is present — possibly with no rdata — its
(possibly empty) rdata set is inserted keyed by that signaling FQDN. -/
theorem step3_signaling (w : World) (child : Name) (rdtype : RdType)
    (noEv : Event) (fqdns : List Name)
    (m0 : List (Option Name × Finset Rdata)) (s : St)
    (hok : ∀ f ∈ fqdns, (queryOpt w f rdtype none).isSome)
    (hm0 : ∀ f ∈ fqdns, ∀ v, (some f, v) ∉ m0) :
    ∃ mF s', step3fold w child rdtype noEv fqdns m0 s = (.ok mF, s') ∧
      ∀ f ∈ fqdns, ∀ a, queryOpt w f rdtype none = some a →
        ((a.rrset = none → (child, noEv) ∈ s'.log ∧ ∀ v, (some f, v) ∉ mF) ∧
         (∀ rr, a.rrset = some rr → (some f, rr.rdatas.toFinset) ∈ mF)) := by
  refine ⟨_, _, step3fold_spec w child rdtype noEv fqdns m0 s hok, ?_⟩
  intro f hf a ha
  constructor
  · intro hrr
    constructor
    · refine List.mem_append.mpr (Or.inr (List.mem_flatMap.mpr ⟨f, hf, ?_⟩))
      simp [step3Events, ha, hrr]
    · intro v hv
      rcases List.mem_append.mp hv with h | h
      · exact hm0 f hf v h
      · obtain ⟨g, hg, hgE⟩ := List.mem_filterMap.mp h
        unfold step3Entry at hgE
        cases hq : queryOpt w g rdtype none with
        | none => rw [hq] at hgE; exact Option.noConfusion hgE
        | some b =>
          rw [hq] at hgE
          cases hbr : b.rrset with
          | none =>
            simp only [Option.some_bind, hbr, Option.map_none] at hgE
            exact Option.noConfusion hgE
          | some rr2 =>
            simp only [Option.some_bind, hbr, Option.map_some', Option.map_some,
              Option.some.injEq, Prod.mk.injEq] at hgE
            have hgf : g = f := by
              have h1 := hgE.1
              simpa using h1
            rw [hgf] at hq
            rw [hq] at ha
            have hab : b = a := Option.some.inj ha
            rw [hab] at hbr
            rw [hbr] at hrr
            exact Option.noConfusion hrr
  · intro rr hrr
    have hE : step3Entry w rdtype f = some (some f, rr.rdatas.toFinset) := by
      simp [step3Entry, ha, hrr]
    exact List.mem_append.mpr (Or.inr (List.mem_filterMap.mpr ⟨f, hf, hE⟩))

/-- Witness for C2: one signaling name answers with no RRset (NO_CDS,
omitted), the other with a present empty RRset (∅ inserted). -/
theorem step3_signaling_witness :
    ∃ mF s', step3fold wStep3 [[99]] .CDS .NO_CDS [[[1]], [[2]]] [] ⟨[], []⟩ =
        (.ok mF, s') ∧
      ∀ f ∈ [[[1]], [[2]]], ∀ a, queryOpt wStep3 f .CDS none = some a →
        ((a.rrset = none → ([[99]], Event.NO_CDS) ∈ s'.log ∧
            ∀ v, (some f, v) ∉ mF) ∧
         (∀ rr, a.rrset = some rr → (some f, rr.rdatas.toFinset) ∈ mF)) :=
  step3_signaling wStep3 [[99]] .CDS .NO_CDS [[[1]], [[2]]] [] ⟨[], []⟩
    (by decide) (by intro f _ v hv; exact absurd hv (List.not_mem_nil _))

/-- C1 is violated by the code (code bug): with the child's DS absent,
the auth resolvable, and the apex CDS/CDNSKEY fetches consistent, a
signaling-name CDS query that fails at the query layer (here: timeout)
makes query_dns_and_extract_rdata record DNS_FAILURE and then fall
through to iterate over Python None: the scan raises TypeError after
recording two events, instead of recording exactly one terminal event
and returning none as the spec requires. -/
theorem scan_exception_escapes :
    (do_scan wBug childBug [authBug] ⟨[], []⟩).1 = .error .typeError ∧
    ((do_scan wBug childBug [authBug] ⟨[], []⟩).2.log.map Prod.snd) =
      [.DNS_TIMEOUT, .DNS_FAILURE] := by decide

/-- C10 as stated is false at this input: the cross-view-agreed CDS set
is empty (first conjunct) and the agreed CDNSKEY set is non-empty
(second conjunct), yet the scan returns none after recording
CHILD_DNSKEY_INCONSISTENT — not the empty DS RRset — because the two
direct DNSKEY responses disagree. -/
theorem scan_empty_cds_counterexample :
    (fetch_rrset_with_consistency wC10 childBug .CDS
      [(authBug, {1}), (authC10, {2})] ⟨[], []⟩).1 = .ok (some ∅) ∧
    (fetch_rrset_with_consistency wC10 childBug .CDNSKEY
      [(authBug, {1}), (authC10, {2})] ⟨[], []⟩).1 =
      .ok (some {Rdata.key 7}) ∧
    (do_scan wC10 childBug [authBug, authC10] ⟨[], []⟩).1 = .ok none ∧
    ((do_scan wC10 childBug [authBug, authC10] ⟨[], []⟩).2.log.map Prod.snd) =
      [.NO_CDS, .NO_CDS, .NO_CDNSKEY, .NO_CDNSKEY,
       .CHILD_DNSKEY_INCONSISTENT] := by decide

theorem lookup_append_of_isSome (m ms : AMap) (k : Name)
    (h : (m.lookup k).isSome) : (m ++ ms).lookup k = m.lookup k := by
  induction m with
  | nil => simp at h
  | cons p rest ih =>
    obtain ⟨k1, v1⟩ := p
    rw [List.cons_append]
    cases hk : (k == k1) with
    | true => simp [List.lookup, hk]
    | false =>
      simp only [List.lookup, hk] at h ⊢
      exact ih h

theorem lookup_append_right_none (m : AMap) (k : Name) (v : Finset Nat)
    (h : m.lookup k = none) : (m ++ [(k, v)]).lookup k = some v := by
  induction m with
  | nil => simp [List.lookup]
  | cons p rest ih =>
    obtain ⟨k1, v1⟩ := p
    rw [List.cons_append]
    cases hk : (k == k1) with
    | true => simp [List.lookup, hk] at h
    | false =>
      simp only [List.lookup, hk] at h ⊢
      exact ih h

theorem lookup_append_single_ne (m : AMap) (k k2 : Name) (v : Finset Nat)
    (h : k ≠ k2) : (m ++ [(k2, v)]).lookup k = m.lookup k := by
  induction m with
  | nil =>
    have hb : (k == k2) = false := beq_eq_false_iff_ne.mpr h
    simp [List.lookup, hb]
  | cons p rest ih =>
    obtain ⟨k1, v1⟩ := p
    rw [List.cons_append]
    cases hk : (k == k1) with
    | true => simp [List.lookup, hk]
    | false =>
      simp only [List.lookup, hk]
      exact ih

theorem update_one_skip (w : World) (m : AMap) (a : Name)
    (h : (m.lookup a).isSome) :
    update_auths_one w m a = (.ok (), m, []) := by
  simp [update_auths_one, h]

theorem update_one_cases (w : World) (m : AMap) (a : Name) :
    (∃ v, m.lookup a = some v ∧ update_auths_one w m a = (.ok (), m, [])) ∨
    (m.lookup a = none ∧ ∃ s1 s2, w.sysResolve a .AAAA = .ok s1 ∧
      w.sysResolve a .A = .ok s2 ∧
      update_auths_one w m a =
        (.ok (), m ++ [(a, s1 ∪ s2)], [(a, .AAAA), (a, .A)])) ∨
    (m.lookup a = none ∧ ∃ e m1 tr1,
      update_auths_one w m a = (.error e, m1, tr1)) := by
  unfold update_auths_one
  cases hl : m.lookup a with
  | some v => exact Or.inl ⟨v, rfl, by simp [hl]⟩
  | none =>
    cases h1 : w.sysResolve a .AAAA with
    | error e =>
      exact Or.inr (Or.inr ⟨rfl, e, m, [(a, .AAAA)], by simp [hl]⟩)
    | ok s1 =>
      cases h2 : w.sysResolve a .A with
      | error e =>
        exact Or.inr (Or.inr
          ⟨rfl, e, m ++ [(a, s1)], [(a, .AAAA), (a, .A)], by simp [hl]⟩)
      | ok s2 => exact Or.inr (Or.inl ⟨rfl, s1, s2, rfl, rfl, by simp [hl]⟩)

theorem update_map_run (w : World) : ∀ (auths : List Name) (m m' : AMap)
    (tr : List (Name × RdType)),
    update_auths_map w auths m = (.ok (), m', tr) →
    m <+: m' ∧
    (∀ a ∈ auths, (m'.lookup a).isSome) ∧
    (∀ k, (m.lookup k).isSome → m'.lookup k = m.lookup k) ∧
    (∀ k, (m.lookup k).isSome → ∀ t, (k, t) ∉ tr) ∧
    (∀ a ∈ auths, m.lookup a = none →
      ∀ s1 s2, w.sysResolve a .AAAA = .ok s1 → w.sysResolve a .A = .ok s2 →
        (a, s1 ∪ s2) ∈ m')
  | [], m, m', tr, h => by
    unfold update_auths_map at h
    have hm : m' = m := by
      have h2 := congrArg (fun p => p.2.1) h
      simpa using h2.symm
    have ht : tr = [] := by
      have h2 := congrArg (fun p => p.2.2) h
      simpa using h2.symm
    subst hm; subst ht
    exact ⟨List.prefix_rfl,
      fun a ha => absurd ha (List.not_mem_nil _),
      fun k _ => rfl,
      fun k _ t ht => absurd ht (List.not_mem_nil _),
      fun a ha => absurd ha (List.not_mem_nil _)⟩
  | a :: rest, m, m', tr, h => by
    unfold update_auths_map at h
    rcases update_one_cases w m a with ⟨v, hl, he⟩ |
      ⟨hl, s1, s2, hA, hB, he⟩ | ⟨hl, e, m1, tr1, he⟩
    · rw [he] at h
      dsimp only at h
      rcases hrec : update_auths_map w rest m with ⟨r2, m2, tr2⟩
      rw [hrec] at h
      dsimp only at h
      have hr2 : r2 = .ok () := by
        have h2 := congrArg (fun p => p.1) h
        simpa using h2
      have hm2 : m2 = m' := by
        have h2 := congrArg (fun p => p.2.1) h
        simpa using h2
      have htr : tr = tr2 := by
        have h2 := congrArg (fun p => p.2.2) h
        simpa using h2.symm
      have hrec' : update_auths_map w rest m = (.ok (), m', tr2) := by
        rw [hrec, hr2, hm2]
      obtain ⟨p1, p2, p3, p4, p5⟩ := update_map_run w rest m m' tr2 hrec'
      refine ⟨p1, ?_, p3, ?_, ?_⟩
      · intro b hb
        rcases List.mem_cons.mp hb with hba | hbr
        · subst hba
          rw [p3 b (by simp [hl])]
          simp [hl]
        · exact p2 b hbr
      · intro k hk t ht
        rw [htr] at ht
        exact p4 k hk t ht
      · intro b hb hbn s1 s2 hA hB
        rcases List.mem_cons.mp hb with hba | hbr
        · subst hba
          rw [hl] at hbn
          exact Option.noConfusion hbn
        · exact p5 b hbr hbn s1 s2 hA hB
    · rw [he] at h
      dsimp only at h
      rcases hrec : update_auths_map w rest (m ++ [(a, s1 ∪ s2)]) with ⟨r2, m2, tr2⟩
      rw [hrec] at h
      dsimp only at h
      have hr2 : r2 = .ok () := by
        have h2 := congrArg (fun p => p.1) h
        simpa using h2
      have hm2 : m2 = m' := by
        have h2 := congrArg (fun p => p.2.1) h
        simpa using h2
      have htr : tr = (a, RdType.AAAA) :: (a, RdType.A) :: tr2 := by
        have h2 := congrArg (fun p => p.2.2) h
        simpa using h2.symm
      have hrec' : update_auths_map w rest (m ++ [(a, s1 ∪ s2)]) =
          (.ok (), m', tr2) := by
        rw [hrec, hr2, hm2]
      obtain ⟨p1, p2, p3, p4, p5⟩ :=
        update_map_run w rest (m ++ [(a, s1 ∪ s2)]) m' tr2 hrec'
      have hpre : m <+: m ++ [(a, s1 ∪ s2)] := List.prefix_append m _
      have hla : (m ++ [(a, s1 ∪ s2)]).lookup a = some (s1 ∪ s2) :=
        lookup_append_right_none m a _ hl
      refine ⟨hpre.trans p1, ?_, ?_, ?_, ?_⟩
      · intro b hb
        rcases List.mem_cons.mp hb with hba | hbr
        · subst hba
          rw [p3 b (by simp [hla])]
          simp [hla]
        · exact p2 b hbr
      · intro k hk
        have hne : k ≠ a := by
          intro hkc; subst hkc
          rw [hl] at hk; exact Bool.noConfusion hk
        have hk1 : (m ++ [(a, s1 ∪ s2)]).lookup k = m.lookup k :=
          lookup_append_of_isSome m _ k hk
        rw [p3 k (by rw [hk1]; exact hk), hk1]
      · intro k hk t ht
        have hne : k ≠ a := by
          intro hkc; subst hkc
          rw [hl] at hk; exact Bool.noConfusion hk
        rw [htr] at ht
        rcases List.mem_cons.mp ht with h1 | h1
        · exact hne (congrArg Prod.fst h1)
        rcases List.mem_cons.mp h1 with h2 | h2
        · exact hne (congrArg Prod.fst h2)
        · have hk1 : (m ++ [(a, s1 ∪ s2)]).lookup k = m.lookup k :=
            lookup_append_of_isSome m _ k hk
          exact p4 k (by rw [hk1]; exact hk) t h2
      · intro b hb hbn s1' s2' hA' hB'
        by_cases hba : b = a
        · subst hba
          rw [hA] at hA'
          rw [hB] at hB'
          have hs1 : s1' = s1 := (Except.ok.inj hA').symm
          have hs2 : s2' = s2 := (Except.ok.inj hB').symm
          subst hs1; subst hs2
          exact p1.sublist.mem (by simp)
        · have hbr : b ∈ rest := by
            rcases List.mem_cons.mp hb with h1 | h1
            · exact absurd h1 hba
            · exact h1
          have hbn1 : (m ++ [(a, s1 ∪ s2)]).lookup b = none := by
            rw [lookup_append_single_ne m b a _ hba]; exact hbn
          exact p5 b hbr hbn1 s1' s2' hA' hB'
    · rw [he] at h
      dsimp only at h
      have h2 := congrArg (fun p => p.1) h
      simp at h2

theorem update_map_rerun (w : World) : ∀ (auths : List Name) (m : AMap),
    (∀ a ∈ auths, (m.lookup a).isSome) →
    update_auths_map w auths m = (.ok (), m, [])
  | [], m, _ => rfl
  | a :: rest, m, h => by
    unfold update_auths_map
    rw [update_one_skip w m a (h a (List.mem_cons_self _ _))]
    dsimp only
    rw [update_map_rerun w rest m (fun b hb => h b (List.mem_cons_of_mem _ hb))]
    simp

/-- C9: the authoritative IP cache operation is idempotent and grow-only:
after a completed run, re-running it changes nothing and issues no
resolver queries; the initial map is a prefix of the final one (no key or
address is ever removed); a hostname already cached is never queried; and
a hostname that resolves with no addresses (AAAA and A both empty) gets
an empty map entry. -/
theorem update_auths_map_props (w : World) (auths : List Name) (m m' : AMap)
    (tr : List (Name × RdType))
    (h : update_auths_map w auths m = (.ok (), m', tr)) :
    update_auths_map w auths m' = (.ok (), m', []) ∧
    m <+: m' ∧
    (∀ k, (m.lookup k).isSome → ∀ t, (k, t) ∉ tr) ∧
    (∀ a ∈ auths, m.lookup a = none →
      w.sysResolve a .AAAA = .ok ∅ → w.sysResolve a .A = .ok ∅ →
      (a, (∅ : Finset Nat)) ∈ m') := by
  obtain ⟨p1, p2, p3, p4, p5⟩ := update_map_run w auths m m' tr h
  refine ⟨update_map_rerun w auths m' p2, p1, p4, ?_⟩
  intro a ha hnone hA hB
  have := p5 a ha hnone ∅ ∅ hA hB
  simpa using this

theorem dnskey_matches_iff (w : World) (n : Name) (k : Rdata) (d : DSRdata) :
    dnskey_matches w n k d = true ↔
      (d.key_tag = w.key_id k ∧ w.make_ds n k d.digest_type = .ok d) := by
  unfold dnskey_matches
  cases hm : w.make_ds n k d.digest_type with
  | ok d' => simp [Bool.and_eq_true, beq_iff_eq, Except.ok.injEq]
  | error e => simp [Bool.and_eq_true]

theorem algList_mem (rs : Finset DSRdata) (alg : Nat) :
    alg ∈ algList rs ↔ ∃ d ∈ rs, d.algorithm = alg := by
  unfold algList
  simp only [List.mem_filter, List.mem_range, decide_eq_true_eq]
  constructor
  · rintro ⟨-, h⟩
    exact h
  · rintro ⟨d, hd, hda⟩
    refine ⟨?_, d, hd, hda⟩
    have hle := Finset.le_sup (f := DSRdata.algorithm) hd
    omega

theorem continuityLoop_ok (w : World) (cds : DSRRset) (a : Answer)
    (rr sigs : RRset) (hrr : a.rrset = some rr) (hsig : a.rrsigset = some sigs) :
    ∀ l : List Nat, continuityLoop w cds a l =
      .ok (decide (∀ alg ∈ l, w.validate (some rr) sigs cds.name
        (filter_dnskey_set w a
          (cds.rdatas.filter (fun d => d.algorithm = alg))) = true))
  | [] => by simp [continuityLoop]
  | alg :: rest => by
    simp only [continuityLoop]
    rw [hsig, hrr]
    dsimp only
    cases hv : w.validate (some rr) sigs cds.name
        (filter_dnskey_set w a (cds.rdatas.filter (fun d => d.algorithm = alg))) with
    | true =>
      simp only [hv, if_true]
      rw [continuityLoop_ok w cds a rr sigs hrr hsig rest]
      simp [List.forall_mem_cons, hv]
    | false =>
      simp [hv, List.forall_mem_cons]

/-- C3: check_continuity partitions the candidate DS set by signature
algorithm; for each algorithm it filters the child's DNSKEY RRset to the
keys whose key tag matches some DS of the partition and whose recomputed
DS fingerprint at the DS's declared digest type equals that DS (with
UnsupportedAlgorithm during fingerprinting swallowed); it validates the
DNSKEY RRset against its RRSIG set using exactly the filtered keys as
trust anchors; and it returns — rather than raises — true iff validation
succeeds for every algorithm partition (a ValidationFailure, the way
dnspython reports any validation problem including unsupported signature
algorithms, is caught and yields false). -/
theorem check_continuity_spec (w : World) (cds : DSRRset) (a : Answer)
    (rr sigs : RRset) (hrr : a.rrset = some rr)
    (hsig : a.rrsigset = some sigs) :
    (check_continuity w cds a =
      .ok (decide (∀ alg ∈ cds.rdatas.image DSRdata.algorithm,
        w.validate (some rr) sigs cds.name
          (filter_dnskey_set w a
            (cds.rdatas.filter (fun d => d.algorithm = alg))) = true))) ∧
    (∀ dsset : Finset DSRdata, ∀ k, k ∈ filter_dnskey_set w a dsset ↔
      (k ∈ rr.rdatas ∧ ∃ d ∈ dsset, d.key_tag = w.key_id k ∧
        w.make_ds rr.name k d.digest_type = .ok d)) := by
  constructor
  · unfold check_continuity
    rw [continuityLoop_ok w cds a rr sigs hrr hsig]
    congr 1
    simp only [decide_eq_decide]
    constructor
    · intro h alg halg
      refine h alg ((algList_mem _ _).mpr ?_)
      simpa [Finset.mem_image] using halg
    · intro h alg halg
      refine h alg ?_
      have hm := (algList_mem _ _).mp halg
      simpa [Finset.mem_image] using hm
  · intro dsset k
    unfold filter_dnskey_set
    rw [hrr]
    simp only [List.mem_toFinset, List.mem_filter, decide_eq_true_eq]
    constructor
    · rintro ⟨hk, d, hd, hm⟩
      exact ⟨hk, d, hd, (dnskey_matches_iff w rr.name k d).mp hm⟩
    · rintro ⟨hk, d, hd, hm⟩
      exact ⟨hk, d, hd, (dnskey_matches_iff w rr.name k d).mpr hm⟩

/-- Witness for C3 at a concrete world, DS set and DNSKEY answer. -/
theorem check_continuity_spec_witness :
    (check_continuity wC3 ⟨[[99]], {dsC3}⟩ ansC3 =
      .ok (decide (∀ alg ∈ ({dsC3} : Finset DSRdata).image DSRdata.algorithm,
        wC3.validate (some rrC3) sigsC3 [[99]]
          (filter_dnskey_set wC3 ansC3
            (({dsC3} : Finset DSRdata).filter
              (fun d => d.algorithm = alg))) = true))) ∧
    (∀ dsset : Finset DSRdata, ∀ k, k ∈ filter_dnskey_set wC3 ansC3 dsset ↔
      (k ∈ rrC3.rdatas ∧ ∃ d ∈ dsset, d.key_tag = wC3.key_id k ∧
        wC3.make_ds rrC3.name k d.digest_type = .ok d)) :=
  check_continuity_spec wC3 ⟨[[99]], {dsC3}⟩ ansC3 rrC3 sigsC3 rfl rfl

/-- C5 as stated is false at this input: the scan succeeds and returns
the DS set {dsC5a, dsC5b} (first conjunct), dsC5b is one of its rdatas
(second conjunct), yet no DNSKEY of the child's DNSKEY RRset — whose
rdatas are exactly [.key 1] (fourth conjunct) — realizes dsC5b's key tag
with a matching recomputed digest (third conjunct): continuity only
needs one matching, signing key per algorithm. -/
theorem scan_ds_key_counterexample :
    (do_scan wC5 childBug [authBug] ⟨[], []⟩).1 =
      .ok (some ⟨childBug, {dsC5a, dsC5b}⟩) ∧
    dsC5b ∈ ({dsC5a, dsC5b} : Finset DSRdata) ∧
    (∀ k ∈ [Rdata.key 1], dnskey_matches wC5 childBug k dsC5b = false) ∧
    rdatasOf ansC5 = [Rdata.key 1] := by decide

theorem filter_dnskey_mem (w : World) (a : Answer) (rr : RRset)
    (hrr : a.rrset = some rr) (dsset : Finset DSRdata) (k : Rdata) :
    k ∈ filter_dnskey_set w a dsset ↔
      (k ∈ rr.rdatas ∧ ∃ d ∈ dsset, d.key_tag = w.key_id k ∧
        w.make_ds rr.name k d.digest_type = .ok d) := by
  unfold filter_dnskey_set
  rw [hrr]
  simp only [List.mem_toFinset, List.mem_filter, decide_eq_true_eq]
  constructor
  · rintro ⟨hk, d, hd, hm⟩
    exact ⟨hk, d, hd, (dnskey_matches_iff w rr.name k d).mp hm⟩
  · rintro ⟨hk, d, hd, hm⟩
    exact ⟨hk, d, hd, (dnskey_matches_iff w rr.name k d).mpr hm⟩

theorem continuityLoop_true (w : World) (cds : DSRRset) (a : Answer) :
    ∀ l : List Nat, continuityLoop w cds a l = .ok true →
    ∀ alg ∈ l, ∃ sigs rr, a.rrsigset = some sigs ∧ a.rrset = some rr ∧
      w.validate (some rr) sigs cds.name
        (filter_dnskey_set w a
          (cds.rdatas.filter (fun d => d.algorithm = alg))) = true
  | [], _, alg, halg => absurd halg (List.not_mem_nil _)
  | alg0 :: rest, h, alg, halg => by
    rw [show continuityLoop w cds a (alg0 :: rest) =
      (match a.rrsigset with
       | none => .error .keyError
       | some sigs =>
         match a.rrset with
         | none => .error .attributeError
         | some rr =>
           if w.validate (some rr) sigs cds.name
               (filter_dnskey_set w a
                 (cds.rdatas.filter (fun d => d.algorithm = alg0))) then
             continuityLoop w cds a rest
           else .ok false) from rfl] at h
    cases hsig : a.rrsigset with
    | none => rw [hsig] at h; exact absurd h (by simp)
    | some sigs =>
      rw [hsig] at h
      cases hrr : a.rrset with
      | none => rw [hrr] at h; exact absurd h (by simp)
      | some rr =>
        rw [hrr] at h
        dsimp only at h
        cases hv : w.validate (some rr) sigs cds.name
            (filter_dnskey_set w a
              (cds.rdatas.filter (fun d => d.algorithm = alg0))) with
        | false => rw [hv] at h; exact absurd h (by simp)
        | true =>
          rw [hv] at h
          simp only [if_true] at h
          rcases List.mem_cons.mp halg with he | hm
          · subst he
            exact ⟨sigs, rr, rfl, rfl, hv⟩
          · obtain ⟨sigs2, rr2, h1, h2, h3⟩ :=
              continuityLoop_true w cds a rest h alg hm
            exact ⟨sigs2, rr2, hsig ▸ h1, hrr ▸ h2, h3⟩

/-- C5, amended: for every scan that returns a DS RRset, the RRset's
owner name equals the input child name, and — provided the validation
oracle only accepts non-empty trust-anchor sets — for every signature
algorithm present in the DS set there is some DNSKEY in the child's
DNSKEY RRset whose key tag is realized and whose recomputed digest
matches some DS rdata of that algorithm.  (The unamended per-rdata claim
is false: continuity validation needs only one matching key per
algorithm, so a returned DS set may contain rdatas matched by no key,
as the counterexample exhibits.) -/
theorem scan_ds_owner_alg (w : World) (child : Name) (auths : List Name)
    (s s' : St) (ds : DSRRset)
    (hrun : do_scan w child auths s = (.ok (some ds), s'))
    (hsound : ∀ orr sigs n ks, w.validate orr sigs n ks = true → ks ≠ ∅) :
    ds.name = child ∧
    ∃ a : Answer, check_continuity w ds a = .ok true ∧
      ∀ alg ∈ ds.rdatas.image DSRdata.algorithm,
        ∃ rr, a.rrset = some rr ∧
          ∃ k ∈ rr.rdatas, ∃ d ∈ ds.rdatas, d.algorithm = alg ∧
            d.key_tag = w.key_id k ∧
            w.make_ds rr.name k d.digest_type = .ok d := by
  unfold do_scan at hrun
  dsimp only at hrun
  repeat' split at hrun
  all_goals simp only [Prod.mk.injEq, Except.ok.injEq, Option.some.injEq,
    reduceCtorEq, false_and] at hrun
  rename_i x2 dsSet hparse x1 answers a0 tail hans hall x hcc
  obtain ⟨hds, hs⟩ := hrun
  subst hds
  refine ⟨rfl, a0, hcc, ?_⟩
  intro alg halg
  rw [Finset.mem_image] at halg
  obtain ⟨d0, hd0, hd0alg⟩ := halg
  have hl : alg ∈ algList dsSet := (algList_mem _ _).mpr ⟨d0, hd0, hd0alg⟩
  have hloop : continuityLoop w ⟨child, dsSet⟩ a0 (algList dsSet) = .ok true := hcc
  obtain ⟨sigs, rr, hsig, hrr, hv⟩ :=
    continuityLoop_true w ⟨child, dsSet⟩ a0 (algList dsSet) hloop alg hl
  have hks := hsound _ _ _ _ hv
  obtain ⟨k, hk⟩ := Finset.nonempty_of_ne_empty hks
  obtain ⟨hkrr, d, hd, htag, hmk⟩ := (filter_dnskey_mem w a0 rr hrr _ k).mp hk
  rw [Finset.mem_filter] at hd
  exact ⟨rr, hrr, k, hkrr, d, hd.1, hd.2, htag, hmk⟩

/-- C5 witness: the amended theorem instantiated at the concrete
successful scan in wC5, whose validation oracle accepts exactly the
non-empty trust-anchor sets. -/
theorem scan_ds_owner_alg_witness :
    (⟨childBug, {dsC5a, dsC5b}⟩ : DSRRset).name = childBug ∧
    ∃ a : Answer,
      check_continuity wC5 ⟨childBug, {dsC5a, dsC5b}⟩ a = .ok true ∧
      ∀ alg ∈ (⟨childBug, {dsC5a, dsC5b}⟩ : DSRRset).rdatas.image DSRdata.algorithm,
        ∃ rr, a.rrset = some rr ∧
          ∃ k ∈ rr.rdatas, ∃ d ∈ (⟨childBug, {dsC5a, dsC5b}⟩ : DSRRset).rdatas,
            d.algorithm = alg ∧ d.key_tag = wC5.key_id k ∧
            wC5.make_ds rr.name k d.digest_type = .ok d :=
  scan_ds_owner_alg wC5 childBug [authBug] ⟨[], []⟩
    (do_scan wC5 childBug [authBug] ⟨[], []⟩).2 ⟨childBug, {dsC5a, dsC5b}⟩
    (Prod.ext_iff.mpr ⟨by decide, rfl⟩)
    (fun _ _ _ ks h => of_decide_eq_true h)

theorem wCyc_next (p : Name) : nextNsecRes wCyc p entryCyc = .ok (some pACyc) :=
  rfl

theorem default_next (p e : Name) : nextNsecRes defaultWorld p e = .ok none :=
  rfl

theorem walkLoop_eq (w : World) (entry : Name) (fuel : Nat) (pfx : Name)
    (acc : List Name) (s : St) :
    walkLoop w entry fuel pfx acc s =
      match next_nsec_pfx w pfx entry s with
      | (.error e, s') => (.error e, s')
      | (.ok none, s') => (.ok (some acc), s')
      | (.ok (some q), s') =>
        if q = [] then (.ok (some acc), s')
        else
          match fuel with
          | 0 => (.ok none, s')
          | fuel' + 1 =>
            walkLoop w entry fuel' q (if q ∈ acc then acc else acc ++ [q]) s' := by
  cases fuel <;> rfl

set_option maxHeartbeats 1600000 in
/-- C8 counterexample: against the adversarial nameserver wCyc, whose
every NSEC response points at the same non-empty relative prefix, the
source's unbounded `while next_prefix:` loop never terminates from the
initial empty prefix — so no O(n) (indeed no finite) bound on the number
of NSEC queries holds for arbitrary response sequences; concretely, the
fuelled loop still runs after 10 iterations although only one name is
signaled. -/
theorem walk_nontermination_counterexample :
    ¬ WalkTerm wCyc entryCyc [] ∧
    (walkLoop wCyc entryCyc 10 [] [] ⟨[], []⟩).1 = .ok none := by
  refine ⟨fun h0 => ?_, by decide⟩
  have aux : ∀ p, WalkTerm wCyc entryCyc p → False := by
    intro p h
    induction h with
    | exc he => rw [wCyc_next] at he; exact absurd he (by simp)
    | stop he => rw [wCyc_next] at he; exact absurd he (by simp)
    | stopEmpty he => rw [wCyc_next] at he; exact absurd he (by decide)
    | step hq hne _ ih => exact ih
  exact aux [] h0

/-- C8, amended: when the nameserver's NSEC chain is well-founded — some
measure on relative names strictly decreases along every continuing
next_nsec_prefix step, as it does for a correctly signed chain walked in
canonical order — the walk from any starting prefix terminates, and the
fuelled loop needs at most μ(start) iterations: fuel μ(start) is never
exhausted, so the walk issues at most μ(start)+1 NSEC queries.  (The
unamended universal O(n) bound is false: an adversarial response
sequence cycles forever, as the counterexample shows.) -/
theorem walk_terminates_of_decreasing (w : World) (entry : Name)
    (μ : Name → Nat)
    (hdec : ∀ p q, nextNsecRes w p entry = .ok (some q) → q ≠ [] → μ q < μ p)
    (p : Name) :
    WalkTerm w entry p ∧
      ∀ fuel acc s, μ p ≤ fuel →
        (walkLoop w entry fuel p acc s).1 ≠ .ok none := by
  constructor
  · have key : ∀ n p, μ p ≤ n → WalkTerm w entry p := by
      intro n
      induction n using Nat.strong_induction_on with
      | _ n ih =>
        intro p hp
        cases hr : nextNsecRes w p entry with
        | error e => exact .exc hr
        | ok o =>
          cases o with
          | none => exact .stop hr
          | some q =>
            by_cases hq : q = []
            · subst hq; exact .stopEmpty hr
            · have hlt := hdec p q hr hq
              exact .step hr hq (ih (μ q) (by omega) q le_rfl)
    exact key (μ p) p le_rfl
  · have key : ∀ n p, μ p ≤ n → ∀ fuel acc s, μ p ≤ fuel →
        (walkLoop w entry fuel p acc s).1 ≠ .ok none := by
      intro n
      induction n using Nat.strong_induction_on with
      | _ n ih =>
        intro p hp fuel acc s hf
        rw [walkLoop_eq]
        cases hnp : next_nsec_pfx w p entry s with
        | mk r s' =>
          cases r with
          | error e => simp
          | ok o =>
            cases o with
            | none => simp
            | some q =>
              dsimp only
              by_cases hq : q = []
              · simp [hq]
              · rw [if_neg hq]
                have hres : nextNsecRes w p entry = .ok (some q) := by
                  unfold next_nsec_pfx at hnp
                  cases hq2 : query_dns w (p ++ entry) .NSEC none s with
                  | mk o2 s2 =>
                    rw [hq2] at hnp
                    cases o2 with
                    | none =>
                      dsimp only at hnp
                      exact absurd (congrArg Prod.fst hnp) (by simp)
                    | some a =>
                      dsimp only at hnp
                      exact congrArg Prod.fst hnp
                have hlt := hdec p q hres hq
                cases fuel with
                | zero => exact absurd hlt (by omega)
                | succ fuel' =>
                  exact ih (μ q) (by omega) q le_rfl fuel' _ s' (by omega)
    exact key (μ p) p le_rfl

/-- C8 witness: the amended theorem at the all-failing world, whose walk
stops immediately from every prefix, with the constant-zero measure (the
decrease hypothesis is vacuous there). -/
theorem walk_terminates_of_decreasing_witness :
    WalkTerm defaultWorld entryCyc pACyc ∧
      ∀ fuel acc s, 0 ≤ fuel →
        (walkLoop defaultWorld entryCyc fuel pACyc acc s).1 ≠ .ok none := by
  refine walk_terminates_of_decreasing defaultWorld entryCyc (fun _ => 0)
    ?_ pACyc
  intro p q h hq
  rw [default_next] at h
  exact absurd h (by simp)

theorem st_delta_refl (s : St) : StDelta s s :=
  ⟨[], by simp, by simp⟩

theorem st_delta_amap (s : St) (m : AMap) : StDelta s { s with amap := m } :=
  ⟨[], by simp, by simp⟩

theorem st_delta_trans {s1 s2 s3 : St} (h1 : StDelta s1 s2)
    (h2 : StDelta s2 s3) : StDelta s1 s3 := by
  obtain ⟨Δ1, hl1, hm1⟩ := h1
  obtain ⟨Δ2, hl2, hm2⟩ := h2
  refine ⟨Δ1 ++ Δ2, by rw [hl2, hl1, List.append_assoc], ?_⟩
  intro p hp
  rcases List.mem_append.mp hp with h | h
  · exact hm1 p h
  · exact hm2 p h

theorem st_delta_record (s : St) (n : Name) (e : Event)
    (he : e ∈ benignEvents) : StDelta s (record s n e) := by
  refine ⟨[(n, e)], rfl, ?_⟩
  intro p hp
  rw [List.mem_singleton] at hp
  subst hp
  exact he

theorem query_dns_log (w : World) (d : Name) (t : RdType)
    (ns : Option (Finset Nat)) (s : St) (r : Option Answer) (s' : St)
    (h : query_dns w d t ns s = (r, s')) :
    s'.amap = s.amap ∧ StDelta s s' := by
  unfold query_dns at h
  cases hr : w.resolve d t ns <;> rw [hr] at h
  case ok a =>
    injection h with h1 h2
    subst h2
    exact ⟨rfl, st_delta_refl s⟩
  case noNameservers =>
    cases hc : w.resolveCD d t ns <;> rw [hc] at h <;>
      (injection h with h1 h2; subst h2;
       exact ⟨rfl, st_delta_record s d _ (by simp [benignEvents])⟩)
  case timeout =>
    injection h with h1 h2
    subst h2
    exact ⟨rfl, st_delta_record s d _ (by simp [benignEvents])⟩
  case otherDNS =>
    injection h with h1 h2
    subst h2
    exact ⟨rfl, st_delta_refl s⟩

theorem extract_log (w : World) (qname : Name) (rdtype : RdType) (s : St)
    (r : Except PyExc (Option (Finset Rdata))) (s' : St)
    (h : query_dns_and_extract_rdata w qname rdtype s = (r, s')) :
    s'.amap = s.amap ∧ StDelta s s' := by
  unfold query_dns_and_extract_rdata at h
  rcases hq : query_dns w qname rdtype none s with ⟨qr, s1⟩
  rw [hq] at h
  obtain ⟨ha, hd⟩ := query_dns_log w qname rdtype none s qr s1 hq
  cases qr with
  | none =>
    dsimp only at h
    injection h with h1 h2
    subst h2
    exact ⟨ha, st_delta_trans hd
      (st_delta_record s1 qname _ (by simp [benignEvents]))⟩
  | some a =>
    dsimp only at h
    cases ha2 : a.rrset <;> rw [ha2] at h <;> dsimp only at h <;>
      (injection h with h1 h2; subst h2; exact ⟨ha, hd⟩)

theorem queryEach_log (w : World) (domain : Name) (rdtype : RdType) :
    ∀ (vs : List (Finset Nat)) (s : St) (rs : List (Option Answer)) (s' : St),
    queryEach w domain rdtype vs s = (rs, s') →
    s'.amap = s.amap ∧ StDelta s s'
  | [], s, rs, s', h => by
    unfold queryEach at h
    injection h with h1 h2
    subst h2
    exact ⟨rfl, st_delta_refl s⟩
  | v :: rest, s, rs, s', h => by
    unfold queryEach at h
    rcases hq : query_dns w domain rdtype (some v) s with ⟨r1, s1⟩
    rw [hq] at h
    dsimp only at h
    rcases hrec : queryEach w domain rdtype rest s1 with ⟨rs2, s2⟩
    rw [hrec] at h
    dsimp only at h
    injection h with h1 h2
    subst h2
    obtain ⟨ha1, hd1⟩ := query_dns_log w domain rdtype (some v) s r1 s1 hq
    obtain ⟨ha2, hd2⟩ := queryEach_log w domain rdtype rest s1 rs2 s2 hrec
    exact ⟨ha2.trans ha1, st_delta_trans hd1 hd2⟩

theorem fetch_log (w : World) (domain : Name) (rdtype : RdType)
    (amapF : AMap) (s : St) (r : Except PyExc (Option (Finset Rdata)))
    (s' : St) (h : fetch_rrset_with_consistency w domain rdtype amapF s = (r, s')) :
    s'.amap = s.amap ∧ StDelta s s' := by
  unfold fetch_rrset_with_consistency at h
  rcases hq : queryEach w domain rdtype (amapF.map (·.2)) s with ⟨rds, s1⟩
  rw [hq] at h
  dsimp only at h
  obtain ⟨ha, hd⟩ := queryEach_log w domain rdtype _ s rds s1 hq
  cases hrs : rrsetsOf rds <;> rw [hrs] at h <;> dsimp only at h
  case error e =>
    injection h with h1 h2
    subst h2
    exact ⟨ha, hd⟩
  case ok l =>
    by_cases hae : all_equal optRRsetEq l = false
    · rw [if_pos hae] at h
      injection h with h1 h2
      subst h2
      exact ⟨ha, hd⟩
    · rw [if_neg hae] at h
      cases rds with
      | nil =>
        dsimp only at h
        injection h with h1 h2
        subst h2
        exact ⟨ha, hd⟩
      | cons r0 rest =>
        cases r0 <;> dsimp only at h <;>
          (injection h with h1 h2; subst h2; exact ⟨ha, hd⟩)

theorem step3fold_log (w : World) (child : Name) (rdtype : RdType)
    (noEv : Event) (hno : noEv ∈ benignEvents) :
    ∀ (fq : List Name) (m : List (Option Name × Finset Rdata)) (s : St)
    (r : Except PyExc (List (Option Name × Finset Rdata))) (s' : St),
    step3fold w child rdtype noEv fq m s = (r, s') →
    s'.amap = s.amap ∧ StDelta s s'
  | [], m, s, r, s', h => by
    unfold step3fold at h
    injection h with h1 h2
    subst h2
    exact ⟨rfl, st_delta_refl s⟩
  | f :: rest, m, s, r, s', h => by
    unfold step3fold at h
    rcases hq : query_dns_and_extract_rdata w f rdtype s with ⟨qr, s1⟩
    rw [hq] at h
    obtain ⟨ha1, hd1⟩ := extract_log w f rdtype s qr s1 hq
    cases qr with
    | error e =>
      dsimp only at h
      injection h with h1 h2
      subst h2
      exact ⟨ha1, hd1⟩
    | ok o =>
      cases o with
      | none =>
        dsimp only at h
        obtain ⟨ha2, hd2⟩ :=
          step3fold_log w child rdtype noEv hno rest m (record s1 child noEv)
            r s' h
        exact ⟨ha2.trans ha1, st_delta_trans hd1
          (st_delta_trans (st_delta_record s1 child noEv hno) hd2)⟩
      | some rs =>
        dsimp only at h
        obtain ⟨ha2, hd2⟩ :=
          step3fold_log w child rdtype noEv hno rest (m ++ [(some f, rs)]) s1
            r s' h
        exact ⟨ha2.trans ha1, st_delta_trans hd1 hd2⟩

theorem step6queries_log (w : World) (child : Name) :
    ∀ (amapF : AMap) (s : St) (rs : List (Option Answer)) (s' : St),
    step6queries w child amapF s = (rs, s') →
    s'.amap = s.amap ∧ StDelta s s'
  | [], s, rs, s', h => by
    unfold step6queries at h
    injection h with h1 h2
    subst h2
    exact ⟨rfl, st_delta_refl s⟩
  | (k, v) :: rest, s, rs, s', h => by
    unfold step6queries at h
    rcases hq : query_dns w child .DNSKEY (some v) s with ⟨r1, s1⟩
    rw [hq] at h
    dsimp only at h
    rcases hrec : step6queries w child rest s1 with ⟨rs2, s2⟩
    rw [hrec] at h
    dsimp only at h
    injection h with h1 h2
    subst h2
    obtain ⟨ha1, hd1⟩ := query_dns_log w child .DNSKEY (some v) s r1 s1 hq
    obtain ⟨ha2, hd2⟩ := step6queries_log w child rest s1 rs2 s2 hrec
    exact ⟨ha2.trans ha1, st_delta_trans hd1 hd2⟩

theorem step3fold_prefix (w : World) (child : Name) (rdtype : RdType)
    (noEv : Event) : ∀ (fq : List Name)
    (m mF : List (Option Name × Finset Rdata)) (s s' : St),
    step3fold w child rdtype noEv fq m s = (.ok mF, s') → m <+: mF
  | [], m, mF, s, s', h => by
    unfold step3fold at h
    injection h with h1 h2
    exact Except.ok.inj h1 ▸ List.prefix_rfl
  | f :: rest, m, mF, s, s', h => by
    unfold step3fold at h
    rcases hq : query_dns_and_extract_rdata w f rdtype s with ⟨qr, s1⟩
    rw [hq] at h
    cases qr with
    | error e =>
      dsimp only at h
      injection h with h1 h2
      exact absurd h1 (by simp)
    | ok o =>
      cases o with
      | none =>
        dsimp only at h
        exact step3fold_prefix w child rdtype noEv rest m mF _ s' h
      | some rs =>
        dsimp only at h
        have := step3fold_prefix w child rdtype noEv rest (m ++ [(some f, rs)])
          mF s1 s' h
        exact (List.prefix_append m [(some f, rs)]).trans this

theorem parse_ds_set_empty : parse_ds_set ∅ = .ok ∅ := by decide

theorem check_continuity_empty (w : World) (n : Name) (a : Answer) :
    check_continuity w ⟨n, ∅⟩ a = .ok true := by
  unfold check_continuity
  rw [show algList (⟨n, ∅⟩ : DSRRset).rdatas = [] from
    show algList ∅ = [] from by decide]
  rfl

/-- C10, amended: in a scan whose cross-view-agreed CDS rdata set is
empty while the agreed CDNSKEY rdata set is non-empty, and whose direct
DNSKEY queries all return answers with equal RRsets, the scan does not
record BOOT_NOOP (that branch needs both sets empty), builds the empty
DS RRset, check_continuity accepts it vacuously (no algorithm
partitions), and the scan returns the empty DS RRset as a success.
(The unamended claim omits the step-6 conditions; the counterexample
shows the scan returning none when the DNSKEY views disagree.) -/
theorem scan_empty_cds_success (w : World) (child : Name)
    (auths : List Name) (s : St) (dsAns : Answer) (m' : AMap)
    (utr : List (Name × RdType)) (cdn : Finset Rdata)
    (cdsMap cdnMap : List (Option Name × Finset Rdata))
    (opts : List (Option Answer)) (a0 : Answer) (arest : List Answer)
    (s3 s4 s5 s6 s7 : St)
    (hq : w.resolve child .DS none = .ok dsAns)
    (hds : rdatasOf dsAns = [])
    (hu : update_auths_map w auths s.amap = (.ok (), m', utr))
    (hcds : fetch_rrset_with_consistency w child .CDS
      (m'.filter (fun kv => auths.contains kv.1)) { s with amap := m' } =
      (.ok (some ∅), s3))
    (hcdn : fetch_rrset_with_consistency w child .CDNSKEY
      (m'.filter (fun kv => auths.contains kv.1)) s3 = (.ok (some cdn), s4))
    (hcdnne : cdn ≠ ∅)
    (h3a : step3fold w child .CDS .NO_CDS (signalingFqdns w child auths)
      [(none, ∅)] s4 = (.ok cdsMap, s5))
    (h3b : all_equal (fun x y => x == y) (cdsMap.map (·.2)) = true)
    (h4a : step3fold w child .CDNSKEY .NO_CDNSKEY
      (signalingFqdns w child auths) [(none, cdn)] s5 = (.ok cdnMap, s6))
    (h4b : all_equal (fun x y => x == y) (cdnMap.map (·.2)) = true)
    (h6q : step6queries w child (m'.filter (fun kv => auths.contains kv.1))
      s6 = (opts, s7))
    (h6a : answersOf opts = .ok (a0 :: arest))
    (h6e : all_equal optRRsetEq ((a0 :: arest).map (·.rrset)) = true)
    (hfresh : (child, Event.BOOT_NOOP) ∉ s.log) :
    do_scan w child auths s = (.ok (some ⟨child, ∅⟩), s7) ∧
    (child, Event.BOOT_NOOP) ∉ s7.log ∧
    check_continuity w ⟨child, ∅⟩ a0 = .ok true := by
  have hrun : do_scan w child auths s = (.ok (some ⟨child, ∅⟩), s7) := by
    unfold do_scan
    rw [show query_dns w child .DS none s = (some dsAns, s) from by
      unfold query_dns; rw [hq]]
    dsimp only
    rw [hds]
    rw [if_neg (by simp)]
    rw [hu]
    dsimp only
    rw [hcds]
    dsimp only
    rw [hcdn]
    dsimp only
    rw [h3a]
    dsimp only
    rw [h4a]
    dsimp only
    rw [h3b]
    rw [if_neg (by simp)]
    rw [h4b]
    rw [if_neg (by simp)]
    obtain ⟨t1, ht1⟩ := step3fold_prefix w child .CDS .NO_CDS _ _ _ _ _ h3a
    obtain ⟨t2, ht2⟩ := step3fold_prefix w child .CDNSKEY .NO_CDNSKEY _ _ _ _ _ h4a
    have hc1 : cdsMap = (none, ∅) :: t1 := by rw [← ht1]; rfl
    have hc2 : cdnMap = (none, cdn) :: t2 := by rw [← ht2]; rfl
    rw [hc1, hc2]
    dsimp only
    rw [if_neg (by simp [hcdnne])]
    rw [parse_ds_set_empty]
    dsimp only
    rw [h6q]
    dsimp only
    rw [h6a]
    dsimp only
    rw [h6e]
    rw [if_neg (by simp)]
    try dsimp only
    rw [check_continuity_empty w child a0]
  have hdelta : StDelta s s7 := by
    have d0 : StDelta s { s with amap := m' } := st_delta_amap s m'
    obtain ⟨-, d1⟩ := fetch_log w child .CDS _ _ _ _ hcds
    obtain ⟨-, d2⟩ := fetch_log w child .CDNSKEY _ _ _ _ hcdn
    obtain ⟨-, d3⟩ := step3fold_log w child .CDS .NO_CDS
      (by simp [benignEvents]) _ _ _ _ _ h3a
    obtain ⟨-, d4⟩ := step3fold_log w child .CDNSKEY .NO_CDNSKEY
      (by simp [benignEvents]) _ _ _ _ _ h4a
    obtain ⟨-, d5⟩ := step6queries_log w child _ _ _ _ h6q
    exact st_delta_trans d0 (st_delta_trans d1 (st_delta_trans d2
      (st_delta_trans d3 (st_delta_trans d4 d5))))
  refine ⟨hrun, ?_, check_continuity_empty w child a0⟩
  obtain ⟨Δ, hl, hm⟩ := hdelta
  rw [hl]
  intro hmem
  rcases List.mem_append.mp hmem with h1 | h1
  · exact hfresh h1
  · have hb := hm _ h1
    simp [benignEvents] at hb

set_option synthInstance.maxHeartbeats 1000000 in
/-- Witness for the amended C10 at a concrete world where both
nameservers agree on the DNSKEY RRset: the scan returns the empty DS. -/
theorem scan_empty_cds_success_witness :
    do_scan wC10ok childBug [authBug, authC10] ⟨[], []⟩ =
      (.ok (some ⟨childBug, ∅⟩), ⟨logC10, amapC10⟩) ∧
    (childBug, Event.BOOT_NOOP) ∉ (⟨logC10, amapC10⟩ : St).log ∧
    check_continuity wC10ok ⟨childBug, ∅⟩ ansDNSKEY1 = .ok true :=
  scan_empty_cds_success wC10ok childBug [authBug, authC10] ⟨[], []⟩
    { rrset := none } amapC10
    [(authBug, .AAAA), (authBug, .A), (authC10, .AAAA), (authC10, .A)]
    {Rdata.key 7} [(none, ∅)] [(none, {Rdata.key 7})]
    [some ansDNSKEY1, some ansDNSKEY1] ansDNSKEY1 [ansDNSKEY1]
    ⟨[], amapC10⟩ ⟨[], amapC10⟩
    ⟨[(childBug, .NO_CDS), (childBug, .NO_CDS)], amapC10⟩
    ⟨logC10, amapC10⟩ ⟨logC10, amapC10⟩
    (by decide) (by decide) (by decide) (by decide) (by decide) (by decide)
    rfl (by decide) rfl (by decide) (by decide) (by decide)
    (by decide) (by decide)

/-- Witness for C9 at a concrete world and a fresh cache. -/
theorem update_auths_map_props_witness :
    update_auths_map wC9 [[[5]], [[6]]] [([[5]], {7, 8}), ([[6]], ∅)] =
        (.ok (), [([[5]], {7, 8}), ([[6]], ∅)], []) ∧
      ([] : AMap) <+: [([[5]], {7, 8}), ([[6]], ∅)] ∧
      (∀ k, (([] : AMap).lookup k).isSome →
        ∀ t, (k, t) ∉ [([[5]], RdType.AAAA), ([[5]], RdType.A),
          ([[6]], RdType.AAAA), ([[6]], RdType.A)]) ∧
      (∀ a ∈ [[[5]], [[6]]], ([] : AMap).lookup a = none →
        wC9.sysResolve a .AAAA = .ok ∅ → wC9.sysResolve a .A = .ok ∅ →
        (a, (∅ : Finset Nat)) ∈ [([[5]], ({7, 8} : Finset Nat)), ([[6]], ∅)]) :=
  update_auths_map_props wC9 [[[5]], [[6]]] [] [([[5]], {7, 8}), ([[6]], ∅)]
    [([[5]], RdType.AAAA), ([[5]], RdType.A), ([[6]], RdType.AAAA),
      ([[6]], RdType.A)] (by decide)

theorem query_dns_fst (w : World) (d : Name) (t : RdType)
    (ns : Option (Finset Nat)) (s : St) :
    (query_dns w d t ns s).1 = queryOpt w d t ns := by
  unfold queryOpt query_dns
  cases w.resolve d t ns with
  | ok a => rfl
  | noNameservers => cases w.resolveCD d t ns <;> rfl
  | timeout => rfl
  | otherDNS => rfl

theorem next_nsec_pfx_amap (w : World) (pfx entry : Name) (s : St) :
    (next_nsec_pfx w pfx entry s).2.amap = s.amap := by
  unfold next_nsec_pfx
  rcases hq : query_dns w (pfx ++ entry) .NSEC none s with ⟨o, s1⟩
  have h1 : s1.amap = s.amap :=
    (query_dns_log w (pfx ++ entry) .NSEC none s o s1 hq).1
  cases o with
  | none => exact h1
  | some a => exact h1

theorem walkLoop_amap (w : World) (entry : Name) :
    ∀ (fuel : Nat) (pfx : Name) (acc : List Name) (s : St),
      (walkLoop w entry fuel pfx acc s).2.amap = s.amap
  | 0, pfx, acc, s => by
    unfold walkLoop
    rcases hn : next_nsec_pfx w pfx entry s with ⟨r, s1⟩
    have h1 := next_nsec_pfx_amap w pfx entry s
    rw [hn] at h1
    cases r with
    | error e => exact h1
    | ok o =>
      cases o with
      | none => exact h1
      | some q =>
        dsimp only
        by_cases hq : q = []
        · rw [if_pos hq]; exact h1
        · rw [if_neg hq]; exact h1
  | fuel' + 1, pfx, acc, s => by
    unfold walkLoop
    rcases hn : next_nsec_pfx w pfx entry s with ⟨r, s1⟩
    have h1 := next_nsec_pfx_amap w pfx entry s
    rw [hn] at h1
    cases r with
    | error e => exact h1
    | ok o =>
      cases o with
      | none => exact h1
      | some q =>
        dsimp only
        by_cases hq : q = []
        · rw [if_pos hq]; exact h1
        · rw [if_neg hq]
          rw [walkLoop_amap w entry fuel' q (if q ∈ acc then acc else acc ++ [q]) s1]
          exact h1

theorem walkAuthSets_amap (w : World) (anc : Name) (fuel : Nat) :
    ∀ (l : List Name) (pm : Name → List Name) (s : St),
      (walkAuthSets w anc fuel l pm s).2.amap = s.amap
  | [], pm, s => rfl
  | auth :: rest, pm, s => by
    unfold walkAuthSets
    dsimp only
    rcases hw : walkLoop w ([signaling_hash w anc, bootLabel] ++ auth) fuel []
        (pm auth) s with ⟨r, s1⟩
    have h1 := walkLoop_amap w ([signaling_hash w anc, bootLabel] ++ auth) fuel
      [] (pm auth) s
    rw [hw] at h1
    cases r with
    | error e => exact h1
    | ok o =>
      cases o with
      | none => exact h1
      | some found =>
        dsimp only
        rw [walkAuthSets_amap w anc fuel rest
          (fun x => if x = auth then found else pm x) s1]
        exact h1

theorem foldl_union_congr (f g : Name → Finset Nat) :
    ∀ (l : List Name), (∀ h ∈ l, f h = g h) → ∀ acc : Finset Nat,
      l.foldl (fun acc h => acc ∪ f h) acc = l.foldl (fun acc h => acc ∪ g h) acc
  | [], _, acc => rfl
  | h :: t, hfg, acc => by
    dsimp only [List.foldl]
    rw [hfg h (List.mem_cons_self _ _)]
    exact foldl_union_congr f g t (fun x hx => hfg x (List.mem_cons_of_mem _ hx)) _

theorem lookup_mem (m : AMap) (k : Name) (v : Finset Nat)
    (h : m.lookup k = some v) : (k, v) ∈ m := by
  induction m with
  | nil => simp [List.lookup] at h
  | cons p rest ih =>
    obtain ⟨k1, v1⟩ := p
    cases hbk : (k == k1) with
    | true =>
      simp only [List.lookup, hbk] at h
      have hv : v1 = v := by injection h
      have hk : k = k1 := eq_of_beq hbk
      exact List.mem_cons.mpr (Or.inl (by rw [hk, hv]))
    | false =>
      simp only [List.lookup, hbk] at h
      exact List.mem_cons.mpr (Or.inr (ih h))

theorem update_map_cons (w : World) (a : Name) (rest : List Name) (m : AMap) :
    update_auths_map w (a :: rest) m =
      match update_auths_one w m a with
      | (.ok _, m1, tr) =>
        match update_auths_map w rest m1 with
        | (r, m'', tr') => (r, m'', tr ++ tr')
      | (.error e, m1, tr) => (.error e, m1, tr) :=
  rfl

theorem update_map_pure (w : World) : ∀ (hosts : List Name) (m : AMap),
    authsOk w m →
    (update_auths_map w hosts m).1 = sysResolveAll w hosts ∧
    (sysResolveAll w hosts = .ok () →
      authsOk w (update_auths_map w hosts m).2.1 ∧
      (∀ k v, m.lookup k = some v →
        (update_auths_map w hosts m).2.1.lookup k = some v) ∧
      ∀ h ∈ hosts, (update_auths_map w hosts m).2.1.lookup h = some (wAddrs w h))
  | [], m, hok =>
    ⟨rfl, fun _ => ⟨hok, fun k v hv => hv, fun h hh => absurd hh (List.not_mem_nil _)⟩⟩
  | a :: rest, m, hok => by
    cases hl : m.lookup a with
    | some v =>
      have hmem : (a, v) ∈ m := lookup_mem m a v hl
      obtain ⟨⟨sA, hA0⟩, ⟨sB, hB0⟩, hv0⟩ := hok _ hmem
      have hA : w.sysResolve a .AAAA = .ok sA := hA0
      have hB : w.sysResolve a .A = .ok sB := hB0
      have hv : v = wAddrs w a := hv0
      have h1 : update_auths_one w m a = (.ok (), m, []) :=
        update_one_skip w m a (by rw [hl]; rfl)
      have hsys : sysResolveAll w (a :: rest) = sysResolveAll w rest := by
        simp only [sysResolveAll, hA, hB]
      obtain ⟨ih1, ih2⟩ := update_map_pure w rest m hok
      rcases hrec : update_auths_map w rest m with ⟨r2, m2, tr2⟩
      rw [hrec] at ih1 ih2
      have hupd : update_auths_map w (a :: rest) m = (r2, m2, [] ++ tr2) := by
        rw [update_map_cons, h1]
        dsimp only
        rw [hrec]
      refine ⟨?_, ?_⟩
      · rw [hupd, hsys]
        exact ih1
      · intro hall
        rw [hsys] at hall
        obtain ⟨ihA, ihP, ihL⟩ := ih2 hall
        rw [hupd]
        refine ⟨ihA, fun k v2 hv2 => ihP k v2 hv2, ?_⟩
        intro h hh
        rcases List.mem_cons.mp hh with he | hm2
        · subst he
          rw [ihP h v hl, hv]
        · exact ihL h hm2
    | none =>
      cases hA : w.sysResolve a .AAAA with
      | error e =>
        have h1 : update_auths_one w m a = (.error e, m, [(a, .AAAA)]) := by
          simp [update_auths_one, hl, hA]
        have hupd : update_auths_map w (a :: rest) m =
            (.error e, m, [(a, .AAAA)]) := by
          rw [update_map_cons, h1]
        have hsys : sysResolveAll w (a :: rest) = .error e := by
          simp only [sysResolveAll, hA]
        exact ⟨by rw [hupd, hsys], fun hall => absurd (hsys ▸ hall) (by simp)⟩
      | ok s1 =>
        cases hB : w.sysResolve a .A with
        | error e =>
          have h1 : update_auths_one w m a =
              (.error e, m ++ [(a, s1)], [(a, .AAAA), (a, .A)]) := by
            simp [update_auths_one, hl, hA, hB]
          have hupd : update_auths_map w (a :: rest) m =
              (.error e, m ++ [(a, s1)], [(a, .AAAA), (a, .A)]) := by
            rw [update_map_cons, h1]
          have hsys : sysResolveAll w (a :: rest) = .error e := by
            simp only [sysResolveAll, hA, hB]
          exact ⟨by rw [hupd, hsys], fun hall => absurd (hsys ▸ hall) (by simp)⟩
        | ok s2 =>
          have h1 : update_auths_one w m a =
              (.ok (), m ++ [(a, s1 ∪ s2)], [(a, .AAAA), (a, .A)]) := by
            simp [update_auths_one, hl, hA, hB]
          have hok1 : authsOk w (m ++ [(a, s1 ∪ s2)]) := by
            intro p hp
            rcases List.mem_append.mp hp with hm2 | hm2
            · exact hok p hm2
            · have hpe : p = (a, s1 ∪ s2) := List.mem_singleton.mp hm2
              subst hpe
              exact ⟨⟨s1, hA⟩, ⟨s2, hB⟩, by simp [wAddrs, hA, hB]⟩
          obtain ⟨ih1, ih2⟩ := update_map_pure w rest (m ++ [(a, s1 ∪ s2)]) hok1
          rcases hrec : update_auths_map w rest (m ++ [(a, s1 ∪ s2)]) with
            ⟨r2, m2, tr2⟩
          rw [hrec] at ih1 ih2
          have hupd : update_auths_map w (a :: rest) m =
              (r2, m2, [(a, .AAAA), (a, .A)] ++ tr2) := by
            rw [update_map_cons, h1]
            dsimp only
            rw [hrec]
          have hsys : sysResolveAll w (a :: rest) = sysResolveAll w rest := by
            simp only [sysResolveAll, hA, hB]
          refine ⟨?_, ?_⟩
          · rw [hupd, hsys]
            exact ih1
          · intro hall
            rw [hsys] at hall
            obtain ⟨ihA2, ihP, ihL⟩ := ih2 hall
            rw [hupd]
            refine ⟨ihA2, ?_, ?_⟩
            · intro k v2 hv2
              have hne : k ≠ a := by
                intro he
                rw [he, hl] at hv2
                exact absurd hv2 (by simp)
              exact ihP k v2
                (by rw [lookup_append_single_ne m k a (s1 ∪ s2) hne]; exact hv2)
            · intro h hh
              rcases List.mem_cons.mp hh with he | hm2
              · subst he
                rw [ihP h (s1 ∪ s2) (lookup_append_right_none m h (s1 ∪ s2) hl)]
                simp [wAddrs, hA, hB]
              · exact ihL h hm2

theorem check_auths_pure (w : World) (domain : Name) (auths : List Name)
    (s : St) (hok : authsOk w s.amap) :
    (check_auths w domain auths s).1 = checkAuthsRes w domain auths ∧
    (∀ b, checkAuthsRes w domain auths = .ok b →
      authsOk w (check_auths w domain auths s).2.amap) := by
  unfold check_auths checkAuthsRes
  cases hz : w.zoneFor (domain.drop 1) with
  | error e => exact ⟨rfl, fun b hb => absurd hb (by simp)⟩
  | ok parent =>
    dsimp only
    rcases hq : query_dns w parent .NS none s with ⟨o, s1⟩
    have hs1 : s1.amap = s.amap := (query_dns_log w parent .NS none s o s1 hq).1
    have ho : queryOpt w parent .NS none = o := by
      rw [← query_dns_fst w parent .NS none s, hq]
    rw [ho]
    cases o with
    | none => exact ⟨rfl, fun b hb => hs1 ▸ hok⟩
    | some res =>
      dsimp only
      cases hrr : res.rrset with
      | none => exact ⟨rfl, fun b hb => absurd hb (by simp)⟩
      | some rr =>
        dsimp only
        cases ht : targetsOf rr.rdatas with
        | error e => exact ⟨rfl, fun b hb => absurd hb (by simp)⟩
        | ok nsHosts =>
          dsimp only
          have hokS1 : authsOk w s1.amap := hs1 ▸ hok
          obtain ⟨hu1, hu2⟩ := update_map_pure w nsHosts s1.amap hokS1
          rcases hu : update_auths_map w nsHosts s1.amap with ⟨r, m', tr⟩
          rw [hu] at hu1 hu2
          have hu1' : r = sysResolveAll w nsHosts := hu1
          rw [← hu1']
          cases r with
          | error e => exact ⟨rfl, fun b hb => absurd hb (by simp)⟩
          | ok u =>
            dsimp only
            have hall : sysResolveAll w nsHosts = .ok () := hu1'.symm
            obtain ⟨hokM0, hpres0, hlook0⟩ := hu2 hall
            have hokM : authsOk w m' := hokM0
            have hlook : ∀ h2 ∈ nsHosts, m'.lookup h2 = some (wAddrs w h2) :=
              hlook0
            have hips : nsHosts.foldl
                (fun acc h2 => acc ∪ ((m'.lookup h2).getD ∅)) ∅ =
                nsHosts.foldl (fun acc h2 => acc ∪ wAddrs w h2) ∅ :=
              foldl_union_congr _ _ nsHosts
                (fun h2 hh2 => by rw [hlook h2 hh2]; rfl) ∅
            rw [hips]
            rcases hq2 : query_dns w domain .NS
                (some (nsHosts.foldl (fun acc h2 => acc ∪ wAddrs w h2) ∅))
                { s1 with amap := m' } with ⟨o2, s3⟩
            have hs3 : s3.amap = m' :=
              (query_dns_log w domain .NS _ { s1 with amap := m' } o2 s3 hq2).1
            have ho2 : queryOpt w domain .NS
                (some (nsHosts.foldl (fun acc h2 => acc ∪ wAddrs w h2) ∅)) =
                o2 := by
              rw [← query_dns_fst w domain .NS _ { s1 with amap := m' }, hq2]
            rw [ho2]
            cases o2 with
            | none => exact ⟨rfl, fun b hb => hs3 ▸ hokM⟩
            | some res2 =>
              dsimp only
              cases hfil : res2.authSection.filter (fun r2 => r2.rdtype == .NS) with
              | nil => exact ⟨rfl, fun b hb => absurd hb (by simp)⟩
              | cons rrA rest2 =>
                cases rest2 with
                | nil =>
                  dsimp only
                  cases ht2 : targetsOf rrA.rdatas with
                  | error e => exact ⟨rfl, fun b hb => absurd hb (by simp)⟩
                  | ok targets => exact ⟨rfl, fun b hb => hs3 ▸ hokM⟩
                | cons rrB rest3 => exact ⟨rfl, fun b hb => absurd hb (by simp)⟩

theorem candFilter_exact (w : World) (auths : List Name) :
    ∀ (cands : List Name) (s : St) (out : List Name) (s2 : St),
    authsOk w s.amap →
    candFilter w auths cands s = (.ok out, s2) →
    out = cands.filter (fun c => decide (checkAuthsRes w c auths = .ok true))
  | [], s, out, s2, _, h => by
    have h1 : (Except.ok [] : Except PyExc (List Name)) = .ok out :=
      congrArg Prod.fst h
    injection h1 with h2
    rw [← h2]
    rfl
  | c :: rest, s, out, s2, hok, h => by
    unfold candFilter at h
    rcases hc : check_auths w c auths s with ⟨r, s1⟩
    rw [hc] at h
    obtain ⟨hpure1, hpure2⟩ := check_auths_pure w c auths s hok
    rw [hc] at hpure1 hpure2
    have hres : checkAuthsRes w c auths = r := hpure1.symm
    cases r with
    | error e =>
      dsimp only at h
      exact absurd (congrArg Prod.fst h) (by simp)
    | ok b =>
      have hokS1 : authsOk w s1.amap := hpure2 b hres
      cases b with
      | true =>
        dsimp only at h
        rcases hcf : candFilter w auths rest s1 with ⟨r2, s3⟩
        rw [hcf] at h
        cases r2 with
        | error e =>
          dsimp only at h
          exact absurd (congrArg Prod.fst h) (by simp)
        | ok out2 =>
          dsimp only at h
          have h1 : (Except.ok (c :: out2) : Except PyExc (List Name)) =
              .ok out := congrArg Prod.fst h
          injection h1 with h2
          have ih := candFilter_exact w auths rest s1 out2 s3 hokS1 hcf
          rw [← h2, List.filter_cons, if_pos (by rw [hres]; exact rfl), ih]
      | false =>
        dsimp only at h
        have ih := candFilter_exact w auths rest s1 out s2 hokS1 h
        rw [List.filter_cons, if_neg (by rw [hres]; simp)]
        exact ih

/-- C7 counterexample: in wC7 the walk collects exactly the prefix pC7
(first conjunct), so the candidate pC7 ++ ancC7 lies in the intersection
of every nameserver's prefix set; check_auths rejects it (second
conjunct), and walk_ancestor indeed drops it, returning the empty
output (third conjunct) — but not silently: the run's event log records
DNS_FAILURE against the parent zone (fourth conjunct), refuting the
claim's "dropped without recording any event". -/
theorem walk_drop_records_counterexample :
    (walkLoop wC7 entryC7 5 [] [] ⟨[], []⟩).1 = .ok (some [pC7]) ∧
    (check_auths wC7 (pC7 ++ ancC7) [aC7] ⟨[], []⟩).1 = .ok false ∧
    (walk_ancestor wC7 5 ancC7 [aC7] ⟨[], []⟩).1 = .ok (some []) ∧
    (walk_ancestor wC7 5 ancC7 [aC7] ⟨[], []⟩).2.log =
      [(parentC7, .DNS_FAILURE)] := by
  decide

/-- C7, amended: a completed walk_ancestor run outputs exactly those
candidates prefix + ancestor whose relative prefix lies in the
intersection of every authoritative nameserver's walked prefix set and
which pass the check_auths verification — in a state whose IP cache
agrees with the world, check_auths computes the pure checkAuthsRes, and
the output is the intersection-candidate list filtered by it.  Failing
candidates are dropped from the output, but not necessarily silently:
check_auths itself can record query-layer events such as DNS_FAILURE
(see the counterexample). -/
theorem walk_ancestor_exact (w : World) (fuel : Nat) (anc : Name)
    (auths : List Name) (s s' : St) (out : List Name)
    (hok : authsOk w s.amap)
    (hrun : walk_ancestor w fuel anc auths s = (.ok (some out), s')) :
    ∃ pm s1 a0 rest,
      walkAuthSets w anc fuel auths (fun _ => ∅) s = (.ok (some pm), s1) ∧
      auths.dedup = a0 :: rest ∧
      out = ((rest.foldl (fun acc a => acc.filter (· ∈ pm a)) (pm a0)).map
          (fun p => p ++ anc)).filter
        (fun c => decide (checkAuthsRes w c auths = .ok true)) := by
  unfold walk_ancestor at hrun
  rcases hwa : walkAuthSets w anc fuel auths (fun _ => ∅) s with ⟨rw1, s1⟩
  rw [hwa] at hrun
  cases rw1 with
  | error e => exact absurd (congrArg Prod.fst hrun) (by simp)
  | ok o =>
    cases o with
    | none =>
      dsimp only at hrun
      exact absurd (congrArg Prod.fst hrun) (by simp)
    | some pm =>
      dsimp only at hrun
      cases hd : auths.dedup with
      | nil =>
        rw [hd] at hrun
        exact absurd (congrArg Prod.fst hrun) (by simp)
      | cons a0 rest =>
        rw [hd] at hrun
        dsimp only at hrun
        rcases hcf : candFilter w auths
            ((rest.foldl (fun acc a => acc.filter (· ∈ pm a)) (pm a0)).map
              (fun p => p ++ anc)) s1 with ⟨rc, s2⟩
        rw [hcf] at hrun
        cases rc with
        | error e =>
          dsimp only at hrun
          exact absurd (congrArg Prod.fst hrun) (by simp)
        | ok out2 =>
          dsimp only at hrun
          have h1 : (Except.ok (some out2) : Except PyExc (Option (List Name))) =
              .ok (some out) := congrArg Prod.fst hrun
          have h2 : out2 = out := by simpa using h1
          have hok1 : authsOk w s1.amap := by
            have hm := walkAuthSets_amap w anc fuel auths (fun _ => ∅) s
            rw [hwa] at hm
            exact hm ▸ hok
          have hfin := candFilter_exact w auths _ s1 out2 s2 hok1 hcf
          exact ⟨pm, s1, a0, rest, rfl, rfl, h2 ▸ hfin⟩

/-- C7 witness: the amended characterization at the concrete wC7 run,
whose initial cache is empty (trivially world-consistent) and whose
single intersection candidate fails the purified check, giving the
empty output. -/
theorem walk_ancestor_exact_witness :
    ∃ pm s1 a0 rest,
      walkAuthSets wC7 ancC7 5 [aC7] (fun _ => ∅) ⟨[], []⟩ =
        (.ok (some pm), s1) ∧
      [aC7].dedup = a0 :: rest ∧
      ([] : List Name) =
        ((rest.foldl (fun acc a => acc.filter (· ∈ pm a)) (pm a0)).map
          (fun p => p ++ ancC7)).filter
        (fun c => decide (checkAuthsRes wC7 c [aC7] = .ok true)) :=
  walk_ancestor_exact wC7 5 ancC7 [aC7] ⟨[], []⟩
    (walk_ancestor wC7 5 ancC7 [aC7] ⟨[], []⟩).2 []
    (fun p hp => absurd hp (List.not_mem_nil _))
    (Prod.ext_iff.mpr ⟨by decide, rfl⟩)

end DSBootstrap
